import Mathlib

/-!
Shallow embedding of `spectrometer/processor/record_processor.py`
(class `RecordProcessor`): the record normalization, identity resolution
and incremental recomputation pipeline.

Modelling conventions:
* Python dicts for records and user profiles become Lean structures.
  A field that the code reads with `.get` (absent allowed) is either an
  `Option` or uses the falsy default (`""`, `0`, `[]`) when only Python
  truthiness of the value matters; a field whose key *presence* is
  tested (`'value' not in review`, `'approvals' in patch`, ...) is an
  `Option`.
* Machine integers are `Int`; timestamps are `Int` seconds.
* Fallible code (Python `KeyError`, `min([])`, indexing `[-1]` on an
  empty list) returns `Option`/a completion flag instead of raising.
* The runtime storage is external to the source file; its contract is
  modelled from the spec (see the `Modelled from the spec:` comments).
* Python `a or b` on strings / ints / lists is truthiness-based; the
  `pyOr*` helpers reproduce it.
-/

namespace Spectrometer

/-- One employment interval of a user profile: `{company_name, end_date}`. -/
structure CompanyInterval where
  company_name : String
  end_date : Int
deriving DecidableEq, Repr

/-- A user identity profile (the Python user dict).
`""` models an absent/`None` string value, `0` an absent `seq`,
`none` an absent `core` key (the code distinguishes a missing `core`
from an empty list via `user.get('core')`). -/
structure User where
  user_id : String := ""
  ldap_id : String := ""
  user_name : String := ""
  emails : List String := []
  companies : List CompanyInterval := []
  core : Option (List (String × String)) := none
  seq : Nat := 0
  company_name : String := ""
deriving DecidableEq, Repr

/-- A Gerrit account object (review `owner`, patch `uploader`,
approval `by`): each key may be absent, and the code tests presence
with `'email' not in owner` etc. -/
structure GUser where
  name : Option String := none
  email : Option String := none
  username : Option String := none
deriving DecidableEq, Repr

/-- A Gerrit approval: `{type, value, grantedOn, by}` (the `description`
key is dropped by `_make_mark_record` and not modelled). -/
structure Approval where
  type : String
  value : Int
  grantedOn : Int
  byUser : GUser
deriving DecidableEq, Repr

/-- A Gerrit patch set; `approvals` is `none` when the key is absent
(`'approvals' in patch` is a presence test in the code). -/
structure PatchSet where
  number : Int := 0
  createdOn : Int := 0
  uploader : GUser := {}
  approvals : Option (List Approval) := none
deriving DecidableEq, Repr

/-- A commit coauthor entry `{author_name, author_email}`. -/
structure Coauthor where
  author_name : String := ""
  author_email : String := ""
deriving DecidableEq, Repr

/-- One release calendar entry `{release_name, end_date}`. -/
structure Release where
  release_name : String
  end_date : Int
deriving DecidableEq, Repr

/-- One repository registry entry `{module, aliases}`. -/
structure Repo where
  module : String
  aliases : List String := []
deriving DecidableEq, Repr

end Spectrometer

namespace Spectrometer

/-- The canonical flat record (the Python record dict), as the union of
the fields the processor reads or writes.  String fields read through
`.get` use `""` for absent; `Option` fields model keys whose presence
is tested by the code. -/
structure Record where
  record_type : String := ""
  primary_key : String := ""
  date : Int := 0
  week : Int := 0
  release : Option String := none
  user_id : String := ""
  ldap_id : String := ""
  author_name : String := ""
  author_email : String := ""
  company_name : String := ""
  -- commit payload
  commit_id : String := ""
  lines_added : Int := 0
  lines_deleted : Int := 0
  loc : Int := 0
  commit_date : Int := 0
  coauthor : List Coauthor := []
  change_id : List String := []
  -- review payload
  id : String := ""
  owner : Option GUser := none
  createdOn : Int := 0
  patchSets : List PatchSet := []
  status : String := ""
  lastUpdated : Int := 0
  module : String := ""
  branch : String := ""
  value : Option Int := none
  updated_on : Int := 0
  number : Option Int := none
  review_id : String := ""
  patch : Option Int := none
  type : String := ""
  review_number : Option Int := none
  disagreement : Option Bool := none
  -- email payload
  message_id : String := ""
  subject : String := ""
  body : Option String := none
  blueprint_id : Option (List String) := none
  mention_count : Option Int := none
  mention_date : Option Int := none
  -- blueprint payload
  drafter : String := ""
  bp_owner : String := ""
  assignee : String := ""
  date_created : Int := 0
  date_completed : Int := 0
  launchpad_id : String := ""
  -- member payload
  member_id : String := ""
  member_name : String := ""
  country : String := ""
  email : String := ""
  company_draft : String := ""
  date_joined : String := ""
deriving DecidableEq, Repr

/-- Read-only inputs of a `RecordProcessor` instance.  `domains`
is the `companies` blob (email-domain suffix, company name), `releases`
the release calendar, `repos` the module registry input.  The functions
`memberDate`, `normalizeCompany` and `timestampToWeek` model the
external helpers `utils.member_date_to_timestamp`,
`utils.normalize_company_name` and `utils.timestamp_to_week`, which are
not part of this source file; they are abstract parameters of the
model. -/
structure Env where
  domains : List (String × String)
  releases : List Release
  repos : List Repo
  memberDate : String → Int := fun _ => 0
  normalizeCompany : String → String := fun s => s
  timestampToWeek : Int → Int := fun _ => 0

/-- The mutable runtime storage.  `users` is the keyed user-document
map (a user document is reachable by several keys), `records` the
record store keyed by `primary_key`, `seqCounter` the next sequence
number the store will stamp, and `deletedLog` a log of the user
documents handed to `delete_user` (observability of the delete
effect). -/
structure St where
  users : List (String × User) := []
  records : List Record := []
  seqCounter : Nat := 1
  deletedLog : List User := []
deriving DecidableEq

/-- Python `a or b` for strings (empty string is falsy). -/
def pyOrStr (a b : String) : String := if a = "" then b else a

/-- Python `a or b or c` for strings. -/
def pyOrStr3 (a b c : String) : String := pyOrStr a (pyOrStr b c)

/-- Python `a or b or c` for ints/sequence numbers (0 or absent is falsy). -/
def pyOrNat3 (a b c : Nat) : Nat := if a ≠ 0 then a else if b ≠ 0 then b else c

/-- Python `a or b or c` for lists (an empty list is falsy). -/
def pyOrList3 {α : Type} (a b c : List α) : List α :=
  if a.isEmpty then (if b.isEmpty then c else b) else a

/-- Python `opt or b` where `opt` is `None`-or-string (used for
`self._get_company_by_email(...) or company`). -/
def pyOrOptStr (a : Option String) (b : String) : String :=
  match a with
  | some s => if s = "" then b else s
  | none => b

/-- Association list lookup (a Python dict read `d.get(k)` / `k in d`). -/
def alookup {α : Type} (l : List (String × α)) (k : String) : Option α :=
  (l.find? (fun kv => kv.1 = k)).map (fun kv => kv.2)

/-- Association list write `d[k] = v` (overwrite or append). -/
def aset {α : Type} (l : List (String × α)) (k : String) (v : α) : List (String × α) :=
  if (l.find? (fun kv => kv.1 = k)).isSome then
    l.map (fun kv => if kv.1 = k then (k, v) else kv)
  else l ++ [(k, v)]

/-- Modelled from the spec: `loadUser(key) -> User|null` of the external
store (`utils.load_user`); an empty/None key finds nothing. -/
def loadUser (st : St) (k : String) : Option User :=
  if k = "" then none else alookup st.users k

/-- Modelled from the spec: `storeUser(User)` of the external store
(`utils.store_user`).  The spec says the store stamps a monotonically
assigned `seq` on first persist, and that users are afterwards found by
email key and by directory-id key, so the document is written under its
`user_id`, `ldap_id` and every email. -/
def storeUser (st : St) (u : User) : User × St :=
  let stamped := if u.seq = 0 then { u with seq := st.seqCounter } else u
  let keys := ([stamped.user_id, stamped.ldap_id] ++ stamped.emails).filter (fun k => k ≠ "")
  (stamped,
    { st with
      users := keys.foldl (fun us k => aset us k stamped) st.users
      seqCounter := if u.seq = 0 then st.seqCounter + 1 else st.seqCounter })

/-- Modelled from the spec: `deleteUser(User)` of the external store
(`utils.delete_user`): the document is removed from all of its keys;
the call is also logged in `deletedLog`. -/
def deleteUser (st : St) (u : User) : St :=
  let keys := ([u.user_id, u.ldap_id] ++ u.emails).filter (fun k => k ≠ "")
  { st with
    users := st.users.filter (fun kv => ¬ kv.1 ∈ keys)
    deletedLog := st.deletedLog ++ [u] }

/-- Python `str.split(sep)` for a one-character separator, on the
character list of a string. -/
def splitChar (sep : Char) : List Char → List (List Char)
  | [] => [[]]
  | x :: xs =>
    match splitChar sep xs with
    | [] => [[]]
    | h :: t => if x = sep then [] :: h :: t else (x :: h) :: t

/-- Python `sep.join(pieces)` for a one-character separator. -/
def joinChar (sep : Char) : List (List Char) → List Char
  | [] => []
  | [x] => x
  | x :: y :: t => x ++ sep :: joinChar sep (y :: t)

/-- Python `str.lower()` (ASCII case folding, which covers the
identifiers this processor handles). -/
def lowerStr (s : String) : String := String.mk (s.data.map Char.toLower)

/-- The suffixes of a label list with at least two labels, longest
first (the loop `for i in range(len(parts), 1, -1)` of
`_get_company_by_email`). -/
def domainSuffixes {α : Type} : List α → List (List α)
  | [] => []
  | [_] => []
  | a :: rest => (a :: rest) :: domainSuffixes rest

/-- `RecordProcessor._get_company_by_email`: split off the domain at
the first `@`, try every suffix of at least two dot-separated labels
against the domain index, longest first. -/
def getCompanyByEmail (domains : List (String × String)) (email : String) : Option String :=
  if email = "" then none
  else
    let pieces := splitChar '@' email.data
    let domain := joinChar '@' pieces.tail
    if domain.isEmpty then none
    else
      (domainSuffixes (splitChar '.' domain)).findSome?
        (fun ps => alookup domains (String.mk (joinChar '.' ps)))

/-- `RecordProcessor._get_independent`. -/
def independent : String := "*independent"

/-- `RecordProcessor._find_company`: first interval whose `end_date`
strictly exceeds the date, else the last interval; `none` models the
`IndexError` of `companies[-1]` on an empty list. -/
def findCompany (companies : List CompanyInterval) (date : Int) : Option String :=
  match companies.find? (fun r => date < r.end_date) with
  | some r => some r.company_name
  | none => (companies.getLast?).map (fun r => r.company_name)

/-- `RecordProcessor._create_user`: the freshly constructed candidate
user for `(ldap_id, email, user_name)`. -/
def createUser (env : Env) (ldap_id email user_name : String) : User :=
  { user_id := pyOrStr ldap_id email
    ldap_id := ldap_id
    user_name := user_name
    companies := [⟨pyOrOptStr (getCompanyByEmail env.domains email) independent, 0⟩]
    emails := if email = "" then [] else [email] }

/-- Loop of `RecordProcessor._update_user_affiliation` on the
companies list: walk the emails; on the first email that resolves to a
company while the list has exactly one interval carrying the
`*independent` placeholder, replace that interval's company and stop
(the Python function mutates nothing but `companies[0]['company_name']`). -/
def affiliationRefresh (env : Env) : List String → List CompanyInterval → List CompanyInterval
  | [], cs => cs
  | e :: rest, cs =>
    match getCompanyByEmail env.domains e with
    | some c =>
      match cs with
      | [ci] =>
        if c ≠ "" ∧ ci.company_name = independent then [⟨c, ci.end_date⟩]
        else affiliationRefresh env rest cs
      | _ => affiliationRefresh env rest cs
    | none => affiliationRefresh env rest cs

/-- `RecordProcessor._update_user_affiliation`. -/
def updateUserAffiliation (env : Env) (u : User) : User :=
  { u with companies := affiliationRefresh env u.emails u.companies }

/-- `RecordProcessor._merge_user_profiles user_a user_b user_c`:
first-truthy choice per scalar key, directory id wins as `user_id`,
set-union of emails and core, affiliation refresh, and deletion of
`user_b` when both `user_a` and `user_b` carry a sequence number. -/
def mergeUserProfiles (env : Env) (st : St) (a b c : User) : User × St :=
  let u : User :=
    { seq := pyOrNat3 a.seq b.seq c.seq
      user_name := pyOrStr3 a.user_name b.user_name c.user_name
      user_id := pyOrStr3 a.user_id b.user_id c.user_id
      ldap_id := pyOrStr3 a.ldap_id b.ldap_id c.ldap_id
      companies := pyOrList3 a.companies b.companies c.companies }
  let u := if u.ldap_id ≠ "" ∧ u.user_id ≠ u.ldap_id then { u with user_id := u.ldap_id } else u
  let u := { u with
    emails := (a.emails ++ b.emails ++ c.emails).dedup
    core := some ((a.core.getD [] ++ b.core.getD [] ++ c.core.getD []).dedup) }
  let u := updateUserAffiliation env u
  let st := if a.seq ≠ 0 ∧ b.seq ≠ 0 then deleteUser st b else st
  (u, st)

/-- The sequence number of an optional loaded user document
(`user_x.get('seq')`, where a failed lookup gave the empty dict). -/
def seqOf (o : Option User) : Nat := (o.map (fun u => u.seq)).getD 0

/-- `RecordProcessor.update_user`: look the user up by email and by
directory id, skip the merge when both lookups carry the same persisted
sequence number, otherwise merge (or create) and persist. -/
def updateUser (env : Env) (st : St) (r : Record) : User × St :=
  let ue := loadUser st r.author_email
  let ul := loadUser st r.ldap_id
  let fresh := createUser env r.ldap_id r.author_email r.author_name
  if seqOf ue = seqOf ul ∧ seqOf ue ≠ 0 then
    (ue.getD fresh, st)
  else
    if ue.isSome ∨ ul.isSome then
      let m := mergeUserProfiles env st (ue.getD {}) (ul.getD {}) fresh
      storeUser m.2 m.1
    else
      storeUser st fresh

/-- Identity stamping part of `_update_record_and_user`: `user_id` and
`ldap_id` always, `author_name` only when the profile name is
non-empty. -/
def stampIdentity (user : User) (r : Record) : Record :=
  let r1 := { r with user_id := user.user_id, ldap_id := user.ldap_id }
  if user.user_name ≠ "" then { r1 with author_name := user.user_name } else r1

/-- Company resolution part of `_update_record_and_user`: the interval
scan for the record's date, overridden by the email-domain company
unless the scan yielded `*robots`; `none` models the crash of
`_find_company` on an empty interval list. -/
def resolvedCompany (env : Env) (user : User) (r : Record) : Option String :=
  match findCompany user.companies r.date with
  | none => none
  | some company =>
    some (if company ≠ "*robots" then
            pyOrOptStr (getCompanyByEmail env.domains r.author_email) company
          else company)

/-- `RecordProcessor._update_record_and_user`. -/
def updateRecordAndUser (env : Env) (st : St) (r : Record) : Option (Record × St) :=
  let us := updateUser env st r
  match resolvedCompany env us.1 r with
  | none => none
  | some company => some ({ stampIdentity us.1 r with company_name := company }, us.2)

/-- Python `needle in hay` / `hay.find(needle) >= 0` on strings: the
needle occurs contiguously in the haystack. -/
def isSubstr (needle hay : String) : Bool := decide (needle.data <:+: hay.data)

/-- Inner loop of `RecordProcessor._get_modules` over the current
registry for one candidate name: on the first entry that is a substring
of the name, stop and report that the name must not be added; on the
first entry of which the name is a substring, remove that entry and
stop.  Returns the updated registry and whether `add` was set to
`False`. -/
def modulesScan (name : String) : List String → List String × Bool
  | [] => ([], false)
  | m :: rest =>
    if isSubstr m name then (m :: rest, true)
    else if isSubstr name m then (rest, false)
    else (m :: (modulesScan name rest).1, (modulesScan name rest).2)

/-- One candidate name of one repo in `_get_modules`: scan the registry,
update the sticky `add` flag, and append the name when still allowed. -/
def modulesAddName (state : List String × Bool) (name : String) : List String × Bool :=
  let s := modulesScan name state.1
  let add' := state.2 && !s.2
  (if add' then s.1 ++ [name] else s.1, add')

/-- One repo of `_get_modules`: the lowercased module name followed by
the aliases, with the `add` flag reset to `True` for the repo. -/
def modulesAddRepo (mods : List String) (repo : Repo) : List String :=
  ((lowerStr repo.module :: repo.aliases).foldl modulesAddName (mods, true)).1

/-- `RecordProcessor._get_modules`, module-name registry part: fold the
repos (the process-wide cache is modelled as this pure function of the
repo list). -/
def getModules (repos : List Repo) : List String :=
  repos.foldl modulesAddRepo []

/-- `RecordProcessor._get_modules`, alias map part:
`alias_module_map[alias] = module` for every alias of every repo. -/
def getAliasModuleMap (repos : List Repo) : List (String × String) :=
  repos.foldl (fun m repo => repo.aliases.foldl (fun m a => aset m a (lowerStr repo.module)) m) []

/-- Index of the first occurrence of `needle` in `hay` (Python
`str.find`, as a char-list position), `none` when absent. -/
def firstOccur (needle : List Char) : List Char → Option Nat
  | [] => if needle.isEmpty then some 0 else none
  | c :: rest =>
    if needle.isPrefixOf (c :: rest) then some 0
    else (firstOccur needle rest).map (fun n => n + 1)

/-- Loop of `_guess_module`: leftmost (smallest start index) match of
any registry name in the lowercased subject; ties keep the earlier
registry entry (strict `<` comparison). -/
def bestGuess (subject : List Char) : List String → Nat → Option String → Option String
  | [], _, best => best
  | m :: rest, pos, best =>
    match firstOccur m.data subject with
    | some i => if i < pos then bestGuess subject rest i (some m) else bestGuess subject rest pos best
    | none => bestGuess subject rest pos best

/-- `RecordProcessor._guess_module`: fill (or, after `[`, overwrite) the
record's module from the registry, default `unknown`, canonicalize
through the alias map. -/
def guessModule (env : Env) (r : Record) : Record :=
  let subject := (lowerStr r.subject).data
  let mods := getModules env.repos
  let best := bestGuess subject mods subject.length none
  let r :=
    match best with
    | some g =>
      match firstOccur g.data subject with
      | some pos =>
        if (0 < pos ∧ subject.getD (pos - 1) ' ' = '[') ∨ r.module = "" then
          { r with module := g }
        else r
      | none => r
    | none => r
  if r.module = "" then { r with module := "unknown" }
  else
    match alookup (getAliasModuleMap env.repos) r.module with
    | some canonical => { r with module := canonical }
    | none => r

/-- Python `bisect.bisect` (bisect_right) on a list of ints, with an
explicit fuel argument (the interval shrinks every step, so fuel
`a.length` is always enough). -/
def bisectRightGo (a : List Int) (x : Int) : Nat → Nat → Nat → Nat
  | 0, lo, _ => lo
  | fuel + 1, lo, hi =>
    if lo < hi then
      let mid := (lo + hi) / 2
      if x < a.getD mid 0 then bisectRightGo a x fuel lo mid
      else bisectRightGo a x fuel (mid + 1) hi
    else lo

/-- Python `bisect.bisect(a, x)`. -/
def bisectRight (a : List Int) (x : Int) : Nat := bisectRightGo a x a.length 0 a.length

/-- `RecordProcessor._get_release`: bisect the release end dates and
clamp beyond-range timestamps to the last release; `none` models the
crash on an empty release calendar. -/
def getRelease (env : Env) (timestamp : Int) : Option String :=
  let dates := env.releases.map (fun r => r.end_date)
  let i := bisectRight dates timestamp
  let i := if env.releases.length ≤ i then env.releases.length - 1 else i
  (env.releases.get? i).map (fun r => r.release_name)

/-- `RecordProcessor._renew_record_date`: stamp the week and, when no
truthy release override is present, the release computed from the
date. -/
def renewRecordDate (env : Env) (r : Record) : Option Record :=
  if r.release = none ∨ r.release = some "" then
    (getRelease env r.date).map (fun rel =>
      { r with week := env.timestampToWeek r.date, release := some rel })
  else some { r with week := env.timestampToWeek r.date }

/-- Turn one coauthor entry into the small record dict on which
`_process_commit` calls `_update_record_and_user` (it carries only the
coauthor's name and email plus the commit's date). -/
def coauthorRecord (date : Int) (c : Coauthor) : Record :=
  { author_name := c.author_name, author_email := c.author_email, date := date }

/-- First coauthor loop of `_process_commit`: resolve identity for each
coauthor record in order, threading the user store; `none` models a
crash. -/
def resolveCoauthors (env : Env) : St → List Record → Option (List Record × St)
  | st, [] => some ([], st)
  | st, c :: rest =>
    match updateRecordAndUser env st c with
    | none => none
    | some (c', st') =>
      match resolveCoauthors env st' rest with
      | none => none
      | some (cs, st'') => some (c' :: cs, st'')

/-- Second coauthor loop of `_process_commit`:
`new_record = deepcopy(record); new_record.update(coauthor);
new_record['primary_key'] += coauthor['author_email']` — the keys of a
resolved coauthor dict are name, email, date and the identity fields
stamped by `_update_record_and_user`. -/
def coauthorCommitRecord (r : Record) (c : Record) : Record :=
  { r with
    author_name := c.author_name
    author_email := c.author_email
    date := c.date
    user_id := c.user_id
    ldap_id := c.ldap_id
    company_name := c.company_name
    primary_key := r.primary_key ++ c.author_email }

/-- `RecordProcessor._process_commit`: one record (dropped when the
resolved company is `*robots`) without coauthors, otherwise one record
per coauthor plus one for the original author appended to the coauthor
list.  Result: the yielded records, the final store and a
completed-without-error flag. -/
def processCommit (env : Env) (st : St) (r : Record) : List Record × St × Bool :=
  let r := { r with
    primary_key := r.commit_id
    loc := r.lines_added + r.lines_deleted
    author_email := lowerStr r.author_email
    commit_date := r.date }
  match r.coauthor with
  | [] =>
    match updateRecordAndUser env st r with
    | none => ([], st, false)
    | some (r', st') =>
      (if r'.company_name ≠ "*robots" then [r'] else [], st', true)
  | c :: cs =>
    let entries := (c :: cs) ++ [⟨r.author_name, r.author_email⟩]
    match resolveCoauthors env st (entries.map (coauthorRecord r.date)) with
    | none => ([], st, false)
    | some (resolved, st') => (resolved.map (coauthorCommitRecord r), st', true)

/-- `RecordProcessor._make_review_record`: flatten the review event
(patch list and owner stripped), `value` and `updated_on` from the last
patch set, then resolve identity.  `none` models the `KeyError` on a
missing owner field and the `min([])` crash on a present-but-empty
approval list. -/
def makeReviewRecord (env : Env) (st : St) (r : Record) : Option (Record × St) := do
  let owner ← r.owner
  let username ← owner.username
  let name ← owner.name
  let email ← owner.email
  let rev : Record := { r with
    patchSets := [], owner := none, createdOn := 0
    primary_key := r.id
    ldap_id := username
    author_name := name
    author_email := lowerStr email
    date := r.createdOn }
  let rev := { rev with updated_on := rev.date }
  let rev ←
    match r.patchSets.getLast? with
    | none => some rev
    | some patch =>
      match patch.approvals with
      | none => some { rev with updated_on := patch.createdOn }
      | some approvals => do
        let v ← (approvals.map (fun p => p.value)).min?
        let first ← approvals.head?
        some { rev with value := some v, updated_on := first.grantedOn }
  let rev := if rev.value = none then { rev with value := some 0 } else rev
  updateRecordAndUser env st rev

/-- Modelled from the spec: `utils.get_patch_id` builds the patch
primary key `<review_id>:<patch_number>`. -/
def getPatchId (review_id : String) (number : Int) : String :=
  review_id ++ ":" ++ toString number

/-- `RecordProcessor._make_patch_record`. -/
def makePatchRecord (env : Env) (st : St) (r : Record) (p : PatchSet) : Option (Record × St) := do
  let username ← p.uploader.username
  let name ← p.uploader.name
  let email ← p.uploader.email
  let pr : Record := {
    record_type := "patch"
    primary_key := getPatchId r.id p.number
    number := some p.number
    date := p.createdOn
    ldap_id := username
    author_name := name
    author_email := lowerStr email
    module := r.module
    branch := r.branch
    review_id := r.id }
  updateRecordAndUser env st pr

/-- `RecordProcessor._make_mark_record`. -/
def makeMarkRecord (env : Env) (st : St) (r : Record) (p : PatchSet) (a : Approval) :
    Option (Record × St) := do
  let username ← a.byUser.username
  let name ← a.byUser.name
  let email ← a.byUser.email
  let mark : Record := {
    record_type := "mark"
    type := a.type
    value := some a.value
    date := a.grantedOn
    primary_key := r.id ++ toString a.grantedOn ++ a.type
    ldap_id := username
    author_name := name
    author_email := lowerStr email
    module := r.module
    branch := r.branch
    review_id := r.id
    patch := some p.number }
  updateRecordAndUser env st mark

/-- An approval kept by `_process_review`: type Code-Review or Workflow. -/
def keptApprovalType (a : Approval) : Bool :=
  a.type = "Code-Review" ∨ a.type = "Workflow"

/-- A Gerrit account that carries both an `email` and a `username` key
(the validity test of `_process_review`). -/
def validIdentity (g : GUser) : Bool :=
  g.email.isSome ∧ g.username.isSome

/-- Mark loop of `_process_review` for one patch set: skip approvals of
other types and approvals whose caster lacks email or username; crash
aborts with the marks yielded so far. -/
def processApprovals (env : Env) (r : Record) (p : PatchSet) :
    St → List Approval → List Record × St × Bool
  | st, [] => ([], st, true)
  | st, a :: rest =>
    if ¬ keptApprovalType a then processApprovals env r p st rest
    else if ¬ validIdentity a.byUser then processApprovals env r p st rest
    else
      match makeMarkRecord env st r p a with
      | none => ([], st, false)
      | some (mark, st') =>
        let k := processApprovals env r p st' rest
        (mark :: k.1, k.2.1, k.2.2)

/-- Patch loop of `_process_review`: skip patch sets whose uploader
lacks email or username (their marks included); otherwise a patch
record followed by its kept marks. -/
def processPatchSets (env : Env) (r : Record) :
    St → List PatchSet → List Record × St × Bool
  | st, [] => ([], st, true)
  | st, p :: rest =>
    if ¬ validIdentity p.uploader then processPatchSets env r st rest
    else
      match makePatchRecord env st r p with
      | none => ([], st, false)
      | some (pr, st') =>
        match p.approvals with
        | none =>
          let k := processPatchSets env r st' rest
          (pr :: k.1, k.2.1, k.2.2)
        | some approvals =>
          let a := processApprovals env r p st' approvals
          if a.2.2 then
            let k := processPatchSets env r a.2.1 rest
            (pr :: a.1 ++ k.1, k.2.1, k.2.2)
          else (pr :: a.1, a.2.1, false)

/-- `RecordProcessor._process_review`: drop the whole event when the
owner lacks email or username; otherwise the review record, then per
valid patch set a patch record and its kept marks. -/
def processReview (env : Env) (st : St) (r : Record) : List Record × St × Bool :=
  match r.owner with
  | none => ([], st, false)
  | some owner =>
    if ¬ validIdentity owner then ([], st, true)
    else
      match makeReviewRecord env st r with
      | none => ([], st, false)
      | some (rev, st') =>
        let k := processPatchSets env r st' r.patchSets
        (rev :: k.1, k.2.1, k.2.2)

/-- Python truthiness of `record.get('blueprint_id')`. -/
def blueprintEmpty (r : Record) : Bool :=
  r.blueprint_id = none ∨ r.blueprint_id = some []

/-- `RecordProcessor._process_email`: one record; module guessed, body
stripped unless a blueprint is referenced (`del record['body']` crashes
when the body key is already absent). -/
def processEmail (env : Env) (st : St) (r : Record) : List Record × St × Bool :=
  let r := { r with primary_key := r.message_id, author_email := lowerStr r.author_email }
  match updateRecordAndUser env st r with
  | none => ([], st, false)
  | some (r1, st') =>
    let r2 := guessModule env r1
    if blueprintEmpty r2 then
      match r2.body with
      | none => ([], st', false)
      | some _ => ([{ r2 with body := none }], st', true)
    else ([r2], st', true)

/-- `RecordProcessor._process_blueprint`: a drafted record always, plus
a completed record when both an assignee and a completion date exist
(the `_link` key stripping has no counterpart here because link fields
are not part of the record model). -/
def processBlueprint (env : Env) (st : St) (r : Record) : List Record × St × Bool :=
  let author := pyOrStr r.drafter r.bp_owner
  let bpd := { r with
    record_type := "bpd"
    primary_key := "bpd:" ++ r.id
    launchpad_id := author
    date := r.date_created }
  match updateRecordAndUser env st bpd with
  | none => ([], st, false)
  | some (bpd', st1) =>
    if r.assignee ≠ "" ∧ r.date_completed ≠ 0 then
      let bpc := { r with
        record_type := "bpc"
        primary_key := "bpc:" ++ r.id
        launchpad_id := r.assignee
        date := r.date_completed }
      match updateRecordAndUser env st1 bpc with
      | none => ([bpd'], st1, false)
      | some (bpc', st2) => ([bpd', bpc'], st2, true)
    else ([bpd'], st1, true)

/-- `RecordProcessor._process_member`: one record plus a forcible
rewrite of the member's user profile (name and a single open-ended
company interval). -/
def processMember (env : Env) (st : St) (r : Record) : List Record × St × Bool :=
  let uid := "member:" ++ r.member_id
  let company_name :=
    pyOrOptStr (alookup env.domains (env.normalizeCompany r.company_draft)) r.company_draft
  let r := { r with
    primary_key := uid
    date := env.memberDate r.date_joined
    author_name := r.member_name
    module := "unknown"
    author_email := pyOrStr r.email uid
    company_name := company_name }
  match updateRecordAndUser env st r with
  | none => ([], st, false)
  | some (r1, st1) =>
    let r2 := { r1 with company_name := company_name }
    match loadUser st1 (pyOrStr r2.user_id uid) with
    | none => ([], st1, false)
    | some u =>
      let u' := { u with
        user_name := r2.author_name
        companies := [⟨company_name, 0⟩]
        company_name := company_name }
      ([{ r2 with company_name := company_name }], (storeUser st1 u').2, true)

/-- `RecordProcessor._apply_type_based_processing`: dispatch on the
declared record type; unknown types yield nothing. -/
def applyTypeBasedProcessing (env : Env) (st : St) (r : Record) : List Record × St × Bool :=
  if r.record_type = "commit" then processCommit env st r
  else if r.record_type = "review" then processReview env st r
  else if r.record_type = "email" then processEmail env st r
  else if r.record_type = "bp" then processBlueprint env st r
  else if r.record_type = "member" then processMember env st r
  else ([], st, true)

/-- Per-record filter and stamping step of `RecordProcessor.process`:
drop `*robots` records, renew week/release on the rest; a release
computation crash aborts the stream. -/
def renewAll (env : Env) : List Record → List Record × Bool
  | [] => ([], true)
  | r :: rest =>
    if r.company_name = "*robots" then renewAll env rest
    else
      match renewRecordDate env r with
      | none => ([], false)
      | some r' => (r' :: (renewAll env rest).1, (renewAll env rest).2)

/-- `RecordProcessor.process`: fan each raw event out through the
type-based normalizer, drop `*robots` records, stamp week and release,
and stream the rest downstream. -/
def process (env : Env) : St → List Record → List Record × St × Bool
  | st, [] => ([], st, true)
  | st, ev :: evs =>
    let a := applyTypeBasedProcessing env st ev
    let k := renewAll env a.1
    if a.2.2 && k.2 then
      let p := process env a.2.1 evs
      (k.1 ++ p.1, p.2.1, p.2.2)
    else (k.1, a.2.1, false)

/-- Upsert one record into the record store by `primary_key`
(the `setRecords` collaborator contract). -/
def upsertRecord (records : List Record) (r : Record) : List Record :=
  if records.any (fun x => x.primary_key = r.primary_key) then
    records.map (fun x => if x.primary_key = r.primary_key then r else x)
  else records ++ [r]

/-- Modelled from the spec: `setRecords(sequence of Record)` of the
external store upserts each record by `primary_key`. -/
def setRecords (records : List Record) (rs : List Record) : List Record :=
  rs.foldl upsertRecord records

/-- Record loop of `RecordProcessor._update_records_with_user_info`:
re-resolve identity for every record, emitting those whose
`company_name`, `user_id` or `author_name` changed; the user store is
mutated along the way. -/
def userInfoGo (env : Env) : St → List Record → List Record × St × Bool
  | st, [] => ([], st, true)
  | st, r :: rest =>
    match updateRecordAndUser env st r with
    | none => ([], st, false)
    | some (r', st') =>
      let k := userInfoGo env st' rest
      if r'.company_name ≠ r.company_name ∨ r'.user_id ≠ r.user_id ∨
          r'.author_name ≠ r.author_name then
        (r' :: k.1, k.2.1, k.2.2)
      else k

/-- `RecordProcessor._update_records_with_user_info` as one pass of
`update`: scan all records, then upsert the emitted ones. -/
def updateRecordsWithUserInfo (env : Env) (st : St) : List Record × St × Bool :=
  let k := userInfoGo env st st.records
  (k.1, { k.2.1 with records := setRecords k.2.1.records k.1 }, k.2.2)

/-- Release chosen by `_update_records_with_releases` for one record:
the override index entry for its primary key when present, else the
release computed from its date. -/
def releaseOf (env : Env) (idx : List (String × String)) (r : Record) : Option String :=
  match alookup idx r.primary_key with
  | some rel => some rel
  | none => getRelease env r.date

/-- Record loop of `RecordProcessor._update_records_with_releases`:
emit every record whose stored release differs from the chosen one;
`none`-cases (release calendar crash, missing `release` key) abort. -/
def releasesGo (env : Env) (idx : List (String × String)) : List Record → List Record × Bool
  | [] => ([], true)
  | r :: rest =>
    match releaseOf env idx r, r.release with
    | some rel, some old =>
      let k := releasesGo env idx rest
      if old ≠ rel then ({ r with release := some rel } :: k.1, k.2) else k
    | _, _ => ([], false)

/-- `RecordProcessor._update_records_with_releases` as one pass of
`update`: scan all records, then upsert the emitted ones. -/
def updateRecordsWithReleases (env : Env) (idx : List (String × String)) (st : St) :
    List Record × St × Bool :=
  let k := releasesGo env idx st.records
  (k.1, { st with records := setRecords st.records k.1 }, k.2)

/-- The mark filter of `_determine_core_contributors`: a "mark" record
dated after the 90-day cutoff with value +2 or -2. -/
def qualifyingCoreMark (now : Int) (r : Record) : Bool :=
  r.record_type = "mark" ∧ r.date > now - 7776000 ∧
    (r.value = some 2 ∨ r.value = some (-2))

/-- The `(module, branch)` set accumulated for one caster by
`_determine_core_contributors` (the per-user set of the
`core_engineers` dict, in first-scan order up to deduplication). -/
def coreOf (now : Int) (records : List Record) (uid : String) : List (String × String) :=
  ((records.filter (fun r => qualifyingCoreMark now r ∧ r.user_id = uid)).map
    (fun r => (r.module, r.branch))).dedup

/-- User loop of `_determine_core_contributors`: replace each user's
core set with the freshly accumulated one and persist only users whose
core set changed.  Returns the final store and the persisted users. -/
def coreUsersGo (now : Int) (records : List Record) :
    St → List (String × User) → St × List User
  | st, [] => (st, [])
  | st, (_, u) :: rest =>
    let newCore := some (coreOf now records u.user_id)
    if newCore ≠ u.core then
      let s := storeUser st { u with core := newCore }
      let k := coreUsersGo now records s.2 rest
      (k.1, s.1 :: k.2)
    else coreUsersGo now records st rest

/-- `RecordProcessor._determine_core_contributors` (`now` stands for
`time.time()`; the 90-day cutoff is `now - 60*60*24*30*3`).  `none`
models the `KeyError` on a value-less mark inside the date window. -/
def determineCoreContributors (now : Int) (st : St) : Option (St × List User) :=
  if st.records.any (fun r =>
      r.record_type = "mark" ∧ r.date > now - 7776000 ∧ r.value = none) then none
  else some (coreUsersGo now st.records st st.users)

/-- Sign contradiction between the baseline core mark and a value
(the chained comparisons `core_mark < 0 < value` / `core_mark > 0 >
value`). -/
def signOpposite (core_mark v : Int) : Bool :=
  (core_mark < 0 ∧ 0 < v) ∨ (core_mark > 0 ∧ v < 0)

/-- The `(module, branch, user_id)` triple of a mark record. -/
def coreTriple (m : Record) : String × String × String :=
  (m.module, m.branch, m.user_id)

/-- Loop of `RecordProcessor._close_patch` over the date-descending
marks: while no baseline is set, a mark by a core engineer sets the
baseline to its value and is itself left untouched; every other mark
has its `disagreement` flag set (true exactly on a sign contradiction
with a non-zero baseline) and is yielded when the flag changed.
Returns (all marks in processing order with final flags, yielded
marks); `none` models the `KeyError` on a value-less mark. -/
def closePatchGo (cores : List (String × String × String)) :
    Int → List Record → Option (List Record × List Record)
  | _, [] => some ([], [])
  | core_mark, m :: rest =>
    if core_mark = 0 ∧ coreTriple m ∈ cores then
      match m.value with
      | none => none
      | some v => (closePatchGo cores v rest).map (fun p => (m :: p.1, p.2))
    else
      match (if core_mark = 0 then some false
             else (m.value).map (fun v => signOpposite core_mark v)) with
      | none => none
      | some d =>
        let m' := { m with disagreement := some d }
        (closePatchGo cores core_mark rest).map (fun p =>
          (m' :: p.1, if m.disagreement.getD false ≠ d then m' :: p.2 else p.2))

/-- Stable insert for date-descending order: place the mark before the
first element whose date is not larger (equal dates keep the original
relative order, as Python's stable sort does). -/
def insertDescByDate (m : Record) : List Record → List Record
  | [] => [m]
  | x :: xs => if x.date ≤ m.date then m :: x :: xs else x :: insertDescByDate m xs

/-- Python `sorted(marks, key=lambda x: x['date'], reverse=True)`:
the unique stable date-descending reordering. -/
def sortDescByDate : List Record → List Record
  | [] => []
  | x :: xs => insertDescByDate x (sortDescByDate xs)

/-- `RecordProcessor._close_patch`: groups with fewer than 2 marks are
returned untouched with nothing yielded; otherwise the marks are
processed in stable date-descending order. -/
def closePatch (cores : List (String × String × String)) (marks : List Record) :
    Option (List Record × List Record) :=
  if marks.length < 2 then some (marks, [])
  else closePatchGo cores 0 (sortDescByDate marks)

instance : Inhabited Record := ⟨{}⟩

/-! ### Concrete instances used by witnesses and counterexamples -/

/-- A minimal environment: one release, no known domains or repos. -/
def envPlain : Env := { domains := [], releases := [⟨"r1", 100⟩], repos := [] }

/-- A plain commit event. -/
def commitEvent : Record :=
  { record_type := "commit", commit_id := "c1", author_email := "A@b.co"
    author_name := "Ann", date := 5 }

/-- The repo list of the C5 example: "nova" registered before
"nova-api". -/
def novaRepos : List Repo := [⟨"nova", []⟩, ⟨"nova-api", []⟩]

/-- Repos whose names show the registry keeping a substring pair. -/
def novaTrioRepos : List Repo := [⟨"anova", []⟩, ⟨"bnova", []⟩, ⟨"nova", []⟩]

/-- Environment for the C9 witness: no domain resolves. -/
def robotsEnv : Env := { domains := [], releases := [⟨"r1", 100⟩], repos := [] }

/-- Store holding a user whose only employment interval is the robots
sentinel. -/
def robotsSt : St :=
  { users := [("bot@x.com",
      { user_id := "bot@x.com", companies := [⟨"*robots", 0⟩]
        emails := ["bot@x.com"], seq := 1 })] }

/-- A record authored by the robots-affiliated user. -/
def robotsRecord : Record := { author_email := "bot@x.com", date := 0 }

/-- Environment for the C1 merge example: one resolvable domain. -/
def mergeEnv : Env :=
  { domains := [("corp.com", "Corp")], releases := [⟨"r1", 100⟩], repos := [] }

/-- The stored email-keyed user of the C1 merge example: persisted
(seq 1) and still carrying the `*independent` placeholder although its
email meanwhile resolves. -/
def mergeUserA : User :=
  { user_id := "b@corp.com", user_name := "Bob", emails := ["b@corp.com"]
    companies := [⟨"*independent", 0⟩], seq := 1 }

/-- Store holding only the email-keyed user document. -/
def mergeSt : St := { users := [("b@corp.com", mergeUserA)] }

/-- The incoming record triggering the merge. -/
def mergeRecord : Record :=
  { author_email := "b@corp.com", author_name := "Bob", date := 0 }

/-- The empty user dict (a failed store lookup). -/
def emptyUser : User := {}

/-- Environment whose only known domain belongs to the robots
company. -/
def c10Env : Env :=
  { domains := [("robo.com", "*robots")], releases := [⟨"r1", 100⟩], repos := [] }

/-- A coauthor-less commit authored from a robots domain. -/
def c10Commit : Record :=
  { record_type := "commit", commit_id := "c9", author_email := "bot@robo.com", date := 1 }

/-- A commit event with one coauthor. -/
def c10CoCommit : Record :=
  { record_type := "commit", commit_id := "cc", author_email := "A@b.co"
    author_name := "Ann", date := 7, coauthor := [⟨"Co", "co@x.org"⟩] }

/-- A fixed "current time" for the core-contributor pass. -/
def c4Now : Int := 1000000000

/-- A recent extreme mark of type Workflow (not Code-Review). -/
def c4Mark : Record :=
  { record_type := "mark", type := "Workflow", value := some 2, date := c4Now - 100
    module := "m", branch := "b", user_id := "u1" }

/-- The user who cast the Workflow mark. -/
def c4User : User := { user_id := "u1", companies := [⟨"c", 0⟩], seq := 1 }

/-- Store holding only that user and that mark. -/
def c4St : St := { users := [("u1", c4User)], records := [c4Mark] }

/-- The fresh candidate `_create_user` builds for the merge example. -/
def mergeFresh : User :=
  createUser mergeEnv mergeRecord.ldap_id mergeRecord.author_email mergeRecord.author_name

/-- Store well-formedness: every persisted user document carries at
least one company interval (`_create_user` always writes one and the
affiliation refresh rewrites an interval without removing any). -/
def usersInv (st : St) : Prop :=
  ∀ kv ∈ st.users, kv.2.companies ≠ []

/-- The flattened review record `_make_review_record` builds before the
value/updated_on adjustment (the event minus `patchSets`, `owner` and
`createdOn`, with the owner identity spliced in). -/
def reviewBase (r : Record) (un nm em : String) : Record :=
  { r with
    patchSets := [], owner := none, createdOn := 0
    primary_key := r.id
    ldap_id := un
    author_name := nm
    author_email := lowerStr em
    date := r.createdOn
    updated_on := r.createdOn }

/-- The value/updated_on adjustment of `_make_review_record` on the
last patch set, before the `value` default and the identity pass.
`none` models the `min([])` crash on a present-but-empty approval
list. -/
def reviewAdjusted (r : Record) (un nm em : String) : Option Record :=
  match r.patchSets.getLast? with
  | none => some (reviewBase r un nm em)
  | some patch =>
    match patch.approvals with
    | none => some { reviewBase r un nm em with updated_on := patch.createdOn }
    | some approvals => do
      let v ← (approvals.map (fun p => p.value)).min?
      let first ← approvals.head?
      some { reviewBase r un nm em with value := some v, updated_on := first.grantedOn }

/-- The record literal `_make_mark_record` hands to
`_update_record_and_user`. -/
def markBase (r : Record) (p : PatchSet) (a : Approval) (un nm em : String) : Record :=
  { record_type := "mark"
    type := a.type
    value := some a.value
    date := a.grantedOn
    primary_key := r.id ++ toString a.grantedOn ++ a.type
    ldap_id := un
    author_name := nm
    author_email := lowerStr em
    module := r.module
    branch := r.branch
    review_id := r.id
    patch := some p.number }

/-- The record literal `_make_patch_record` hands to
`_update_record_and_user`. -/
def patchBase (r : Record) (p : PatchSet) (un nm em : String) : Record :=
  { record_type := "patch"
    primary_key := getPatchId r.id p.number
    number := some p.number
    date := p.createdOn
    ldap_id := un
    author_name := nm
    author_email := lowerStr em
    module := r.module
    branch := r.branch
    review_id := r.id }

/-- The observable key of an emitted review fan-out record: its type,
primary key, patch number, date and approval type. -/
def identityKey (x : Record) : String × String × Option Int × Int × String :=
  (x.record_type, x.primary_key, x.patch, x.date, x.type)

/-- The key of the mark record emitted for one kept approval. -/
def markKey (rid : String) (pnum : Int) (a : Approval) :
    String × String × Option Int × Int × String :=
  ("mark", rid ++ toString a.grantedOn ++ a.type, some pnum, a.grantedOn, a.type)

/-- The keys of the records `_process_review` emits for one valid patch
set: its patch record followed by one mark per kept approval with a
valid caster. -/
def patchKeys (r : Record) (p : PatchSet) : List (String × String × Option Int × Int × String) :=
  ("patch", getPatchId r.id p.number, none, p.createdOn, "") ::
    ((p.approvals.getD []).filter (fun a => keptApprovalType a && validIdentity a.byUser)).map
      (markKey r.id p.number)

/-- Cores and marks of the C3 example: the freshest mark is by a core
engineer and already carries a stale disagreement flag. -/
def c3Cores : List (String × String × String) := [("m", "b", "u1")]

/-- The baseline-establishing core mark (pre-flagged true). -/
def c3CoreMark : Record :=
  { record_type := "mark", module := "m", branch := "b", user_id := "u1"
    value := some 2, date := 10, disagreement := some true }

/-- A chronologically earlier non-core mark with opposite sign. -/
def c3LaterMark : Record :=
  { record_type := "mark", module := "m", branch := "b", user_id := "u2"
    value := some (-1), date := 5 }

/-- A non-core mark fresher than the core mark (C3 witness input). -/
def c3PreMark : Record :=
  { record_type := "mark", module := "m", branch := "b", user_id := "u3"
    value := some 1, date := 20 }

/-- Users of the C7 example: the email-keyed document points at a
directory id whose own document carries a different sequence number. -/
def c7UserA : User :=
  { user_id := "e@x", ldap_id := "K", user_name := "N", emails := ["e@x"]
    companies := [⟨"CA", 0⟩], seq := 1 }

/-- The directory-id-keyed document sharing A's sequence number. -/
def c7UserB : User :=
  { user_id := "L", ldap_id := "L", user_name := "N", companies := [⟨"CA", 0⟩], seq := 1 }

/-- The document stored under the key A's `ldap_id` points to. -/
def c7UserC : User :=
  { user_id := "K", ldap_id := "K", user_name := "N", companies := [⟨"CA", 0⟩], seq := 5 }

/-- The single stored record of the C7 example. -/
def c7Record : Record :=
  { record_type := "commit", primary_key := "p1", date := 5, author_email := "e@x"
    author_name := "old", ldap_id := "L", user_id := "e@x", company_name := "CA"
    release := some "r1" }

/-- The C7 store. -/
def c7St : St :=
  { users := [("e@x", c7UserA), ("L", c7UserB), ("K", c7UserC)], records := [c7Record] }

/-- The C7 environment. -/
def c7Env : Env := { domains := [], releases := [⟨"r1", 100⟩], repos := [] }

/-- A one-record store on which the release pass completes. -/
def c7RelSt : St := { records := [{ primary_key := "p", date := 5, release := some "x" }] }

/-- C6 example cast: a reviewer with a full identity. -/
def c6By : GUser :=
  { name := some "Rita Reviewer", email := some "rita@example.org", username := some "rita" }

/-- C6 example cast: a second reviewer with a full identity. -/
def c6By2 : GUser :=
  { name := some "Sam Second", email := some "sam@example.org", username := some "sam" }

/-- C6 example cast: the review owner. -/
def c6Owner : GUser :=
  { name := some "Oona Owner", email := some "oona@example.org", username := some "oona" }

/-- C6 first-listed approval, granted at 5. -/
def c6A1 : Approval := ⟨"Code-Review", 1, 5, c6By⟩

/-- C6 second-listed approval, granted later, at 10. -/
def c6A2 : Approval := ⟨"Code-Review", 2, 10, c6By2⟩

/-- C6 single patch set, carrying the two approvals in grant order. -/
def c6Patch : PatchSet := ⟨1, 60, c6By, some [c6A1, c6A2]⟩

/-- C6 review event. -/
def c6Review : Record :=
  { record_type := "review", id := "rev6", createdOn := 50, owner := some c6Owner,
    module := "mod", branch := "master", patchSets := [c6Patch] }

/-- C8: the review owner, with a full identity. -/
def c8Owner : GUser :=
  { name := some "Olive Owner", email := some "olive@example.org", username := some "olive" }

/-- C8: a valid uploader. -/
def c8Up : GUser :=
  { name := some "Ursula Up", email := some "ursula@example.org", username := some "ursula" }

/-- C8: an uploader lacking a username (invalid identity). -/
def c8UpBad : GUser := { name := some "No Username", email := some "nouser@example.org" }

/-- C8: a valid approval caster. -/
def c8Cast : GUser :=
  { name := some "Carl Cast", email := some "carl@example.org", username := some "carl" }

/-- C8: a caster lacking a username (invalid identity). -/
def c8CastBad : GUser := { name := some "Anna Anon", email := some "anon@example.org" }

/-- C8: a kept approval with a valid caster. -/
def c8A1 : Approval := ⟨"Code-Review", 2, 70, c8Cast⟩

/-- C8: an approval of a dropped type. -/
def c8A2 : Approval := ⟨"Verified", 1, 71, c8Cast⟩

/-- C8: a kept approval whose caster lacks a username. -/
def c8A3 : Approval := ⟨"Workflow", 1, 72, c8CastBad⟩

/-- C8: a valid patch set with one kept, one dropped-type and one
invalid-caster approval. -/
def c8P1 : PatchSet := ⟨1, 60, c8Up, some [c8A1, c8A2, c8A3]⟩

/-- C8: a patch set whose uploader lacks a username. -/
def c8P2 : PatchSet := ⟨2, 65, c8UpBad, some [c8A1]⟩

/-- C8: a valid unreviewed patch set. -/
def c8P3 : PatchSet := ⟨3, 66, c8Up, none⟩

/-- C8 review event: valid owner, one fully valid patch set, one
invalid-uploader patch set, one valid unreviewed patch set. -/
def c8Review : Record :=
  { record_type := "review", id := "rev8", createdOn := 40, owner := some c8Owner,
    module := "mod", branch := "master", patchSets := [c8P1, c8P2, c8P3] }

/-! ### Theorems -/

/-- `_renew_record_date` never changes the resolved company. -/
theorem renewRecordDate_company (env : Env) (r r' : Record)
    (h : renewRecordDate env r = some r') : r'.company_name = r.company_name := by
  unfold renewRecordDate at h
  split at h
  · rcases Option.map_eq_some'.mp h with ⟨rel, _, hrel⟩
    subst hrel
    rfl
  · rw [Option.some_inj] at h
    subst h
    rfl

/-- Every record surviving the per-record filter step of `process` has
a company other than `*robots`. -/
theorem mem_renewAll_not_robots (env : Env) :
    ∀ (rs : List Record) (r : Record), r ∈ (renewAll env rs).1 →
      r.company_name ≠ "*robots" := by
  intro rs
  induction rs with
  | nil => intro r hr; simp [renewAll] at hr
  | cons x rest ih =>
    intro r hr
    unfold renewAll at hr
    by_cases hx : x.company_name = "*robots"
    · rw [if_pos hx] at hr
      exact ih r hr
    · rw [if_neg hx] at hr
      cases hren : renewRecordDate env x with
      | none => rw [hren] at hr; simp at hr
      | some x' =>
        rw [hren] at hr
        rcases List.mem_cons.mp hr with h1 | h2
        · subst h1
          rw [renewRecordDate_company env x r hren]
          exact hx
        · exact ih r h2

/-- C2: for every input event stream and every record yielded
downstream by `process`, the record's `company_name` is not
`"*robots"`: no record whose resolved company is the robots sentinel is
ever handed to the store from ingestion, regardless of event type. -/
theorem c2_process_never_yields_robots (env : Env) :
    ∀ (st : St) (events : List Record) (r : Record),
      r ∈ (process env st events).1 → r.company_name ≠ "*robots" := by
  intro st events
  induction events generalizing st with
  | nil => intro r hr; simp [process] at hr
  | cons ev evs ih =>
    intro r hr
    unfold process at hr
    dsimp only at hr
    split at hr
    · rcases List.mem_append.mp hr with h1 | h2
      · exact mem_renewAll_not_robots env _ r h1
      · exact ih _ r h2
    · exact mem_renewAll_not_robots env _ r hr

/-- C2 witness: the record the plain commit event yields through
`process` indeed has a non-robots company. -/
theorem c2_witness :
    ((process envPlain {} [commitEvent]).1.headI).company_name ≠ "*robots" :=
  c2_process_never_yields_robots envPlain {} [commitEvent] _ (by decide)

/-- C5 counterexample: building the registry from "nova" then
"nova-api" yields `{"nova"}`, not `{"nova-api"}` as the claim states —
the code keeps the existing substring entry and skips the longer new
name. -/
theorem c5_counterexample :
    getModules novaRepos = ["nova"] ∧ ¬ ("nova-api" ∈ getModules novaRepos) := by
  decide

/-- C5 (amended): adding a new name is skipped when an existing entry
is a substring of it; a name with no substring relation to any entry is
appended; building from "nova" then "nova-api" yields `{"nova"}`; and
the registry can end up holding two names where one is a substring of
the other (when a name is a substring of several entries, only the
first is removed). -/
theorem c5_registry_keeps_minimal_names :
    getModules novaRepos = ["nova"]
    ∧ (∀ (mods : List String) (name : String),
        (∀ m ∈ mods, ¬ isSubstr name m) → (∃ m ∈ mods, isSubstr m name) →
        modulesAddName (mods, true) name = (mods, false))
    ∧ (∀ (mods : List String) (name : String),
        (∀ m ∈ mods, ¬ isSubstr m name) → (∀ m ∈ mods, ¬ isSubstr name m) →
        modulesAddName (mods, true) name = (mods ++ [name], true))
    ∧ (getModules novaTrioRepos = ["bnova", "nova"] ∧ isSubstr "nova" "bnova" = true) := by
  refine ⟨by decide, ?_, ?_, by decide⟩
  · intro mods name hno hyes
    have hscan : modulesScan name mods = (mods, true) := by
      induction mods with
      | nil => rcases hyes with ⟨m, hm, _⟩; cases hm
      | cons x rest ih =>
        unfold modulesScan
        by_cases h1 : isSubstr x name
        · rw [if_pos h1]
        · rw [if_neg h1]
          have h2 : ¬ isSubstr name x = true := hno x (List.mem_cons_self x rest)
          rw [if_neg h2]
          have hrest : modulesScan name rest = (rest, true) := by
            apply ih
            · intro m hm; exact hno m (List.mem_cons_of_mem x hm)
            · rcases hyes with ⟨m, hm, hsub⟩
              rcases List.mem_cons.mp hm with he | hm'
              · subst he; exact absurd hsub h1
              · exact ⟨m, hm', hsub⟩
          rw [hrest]
    unfold modulesAddName
    rw [hscan]
    simp
  · intro mods name hno1 hno2
    have hscan : modulesScan name mods = (mods, false) := by
      induction mods with
      | nil => rfl
      | cons x rest ih =>
        unfold modulesScan
        have h1 : ¬ isSubstr x name = true := hno1 x (List.mem_cons_self x rest)
        have h2 : ¬ isSubstr name x = true := hno2 x (List.mem_cons_self x rest)
        rw [if_neg h1, if_neg h2]
        have hrest : modulesScan name rest = (rest, false) := by
          apply ih
          · intro m hm; exact hno1 m (List.mem_cons_of_mem x hm)
          · intro m hm; exact hno2 m (List.mem_cons_of_mem x hm)
        rw [hrest]
    unfold modulesAddName
    rw [hscan]
    simp

/-- C5 witness: a name with an existing substring entry is skipped and
removes nothing. -/
theorem c5_witness : modulesAddName (["ab"], true) "abc" = (["ab"], false) :=
  c5_registry_keeps_minimal_names.2.1 ["ab"] "abc" (by decide) (by decide)

/-- C9: when `_update_record_and_user` stamps a record, the company
resolved from the author email's domain takes precedence over the
company found by scanning the user's intervals for the record's date,
except that a `*robots` interval-scan result is kept and never
overridden by an email-domain match. -/
theorem c9_email_company_precedence (env : Env) (st : St) (r : Record)
    (u : User) (fc : String)
    (hu : (updateUser env st r).1 = u)
    (hfc : findCompany u.companies r.date = some fc) :
    ∃ r' st', updateRecordAndUser env st r = some (r', st')
      ∧ (fc = "*robots" → r'.company_name = "*robots")
      ∧ (fc ≠ "*robots" →
          ∀ c, getCompanyByEmail env.domains r.author_email = some c → c ≠ "" →
            r'.company_name = c)
      ∧ (fc ≠ "*robots" →
          getCompanyByEmail env.domains r.author_email = none →
            r'.company_name = fc) := by
  have hres : resolvedCompany env (updateUser env st r).1 r =
      some (if fc ≠ "*robots" then
              pyOrOptStr (getCompanyByEmail env.domains r.author_email) fc
            else fc) := by
    unfold resolvedCompany
    rw [hu, hfc]
  refine ⟨{ stampIdentity (updateUser env st r).1 r with
              company_name :=
                if fc ≠ "*robots" then
                  pyOrOptStr (getCompanyByEmail env.domains r.author_email) fc
                else fc },
          (updateUser env st r).2, ?_, ?_, ?_, ?_⟩
  · simp only [updateRecordAndUser]
    rw [hres]
  · intro hrob
    simp [hrob]
  · intro hrob c hc hcne
    simp [hrob, hc, pyOrOptStr, hcne]
  · intro hrob hc
    simp [hrob, hc, pyOrOptStr]

/-- The user document built by `_merge_user_profiles`, spelled out. -/
theorem mergeUserProfiles_user (env : Env) (st : St) (a b c : User) :
    (mergeUserProfiles env st a b c).1 =
      { seq := pyOrNat3 a.seq b.seq c.seq
        user_name := pyOrStr3 a.user_name b.user_name c.user_name
        user_id := if pyOrStr3 a.ldap_id b.ldap_id c.ldap_id ≠ "" ∧
                      pyOrStr3 a.user_id b.user_id c.user_id ≠
                        pyOrStr3 a.ldap_id b.ldap_id c.ldap_id
                   then pyOrStr3 a.ldap_id b.ldap_id c.ldap_id
                   else pyOrStr3 a.user_id b.user_id c.user_id
        ldap_id := pyOrStr3 a.ldap_id b.ldap_id c.ldap_id
        emails := (a.emails ++ b.emails ++ c.emails).dedup
        core := some ((a.core.getD [] ++ b.core.getD [] ++ c.core.getD []).dedup)
        companies := affiliationRefresh env ((a.emails ++ b.emails ++ c.emails).dedup)
          (pyOrList3 a.companies b.companies c.companies) } := by
  unfold mergeUserProfiles updateUserAffiliation
  dsimp only
  by_cases hov : pyOrStr3 a.ldap_id b.ldap_id c.ldap_id ≠ "" ∧
      pyOrStr3 a.user_id b.user_id c.user_id ≠ pyOrStr3 a.ldap_id b.ldap_id c.ldap_id
  · rw [if_pos hov, if_pos hov]
  · rw [if_neg hov, if_neg hov]

/-- The store side of `_merge_user_profiles`: the directory-id-keyed
document is deleted exactly when both pre-existing documents carry a
sequence number. -/
theorem mergeUserProfiles_deletedLog (env : Env) (st : St) (a b c : User) :
    (mergeUserProfiles env st a b c).2.deletedLog =
      st.deletedLog ++ (if a.seq ≠ 0 ∧ b.seq ≠ 0 then [b] else []) := by
  unfold mergeUserProfiles
  by_cases h : a.seq ≠ 0 ∧ b.seq ≠ 0
  · rw [if_pos h, if_pos h]
    rfl
  · rw [if_neg h, if_neg h]
    exact (List.append_nil _).symm

/-- `storeUser` never touches the deletion log. -/
theorem storeUser_deletedLog (st : St) (u : User) :
    (storeUser st u).2.deletedLog = st.deletedLog := rfl

/-- C1 counterexample: a merge performed by `update_user` (the lookups
do not both return the same persisted sequence number) whose resulting
`companies` is NOT the first non-empty value in priority order: the
affiliation refresh rewrites the sole `*independent` interval, so the
claim's companies clause fails. -/
theorem c1_counterexample :
    (¬ (seqOf (loadUser mergeSt mergeRecord.author_email) =
          seqOf (loadUser mergeSt mergeRecord.ldap_id) ∧
        seqOf (loadUser mergeSt mergeRecord.author_email) ≠ 0))
    ∧ (loadUser mergeSt mergeRecord.author_email).isSome = true
    ∧ pyOrList3 ((loadUser mergeSt mergeRecord.author_email).getD {}).companies
        ((loadUser mergeSt mergeRecord.ldap_id).getD {}).companies
        (createUser mergeEnv mergeRecord.ldap_id mergeRecord.author_email
          mergeRecord.author_name).companies = [⟨"*independent", 0⟩]
    ∧ (updateUser mergeEnv mergeSt mergeRecord).1.companies = [⟨"Corp", 0⟩] := by
  decide

/-- C1 (amended): for every merge performed by `update_user` (lookups
not sharing a persisted sequence number, at least one lookup
non-empty, and the chosen sequence number non-zero so the store stamps
nothing): `seq`, `user_name` and `ldap_id` are the first non-empty
value in priority order (email-keyed, directory-id-keyed, fresh
candidate); `user_id` is that first non-empty value overridden by the
chosen directory id when one is present and differs; `emails` and
`core` are the set unions over the three inputs; `companies` is the
first non-empty value subsequently subjected to the affiliation
refresh; and the directory-id-keyed document is handed to
`delete_user` exactly when both pre-existing documents carry a
sequence number. -/
theorem c1_merge_first_nonempty (env : Env) (st : St) (r : Record) (A B C' : User)
    (hA : (loadUser st r.author_email).getD {} = A)
    (hB : (loadUser st r.ldap_id).getD {} = B)
    (hC : createUser env r.ldap_id r.author_email r.author_name = C')
    (hmerge : ¬ (seqOf (loadUser st r.author_email) = seqOf (loadUser st r.ldap_id) ∧
                 seqOf (loadUser st r.author_email) ≠ 0))
    (hsome : (loadUser st r.author_email).isSome ∨ (loadUser st r.ldap_id).isSome)
    (hseq : pyOrNat3 A.seq B.seq C'.seq ≠ 0) :
    ((updateUser env st r).1.seq = pyOrNat3 A.seq B.seq C'.seq)
    ∧ ((updateUser env st r).1.user_name = pyOrStr3 A.user_name B.user_name C'.user_name)
    ∧ ((updateUser env st r).1.ldap_id = pyOrStr3 A.ldap_id B.ldap_id C'.ldap_id)
    ∧ ((updateUser env st r).1.user_id =
        if pyOrStr3 A.ldap_id B.ldap_id C'.ldap_id ≠ "" ∧
            pyOrStr3 A.user_id B.user_id C'.user_id ≠ pyOrStr3 A.ldap_id B.ldap_id C'.ldap_id
        then pyOrStr3 A.ldap_id B.ldap_id C'.ldap_id
        else pyOrStr3 A.user_id B.user_id C'.user_id)
    ∧ (∀ e, e ∈ (updateUser env st r).1.emails ↔
        e ∈ A.emails ∨ e ∈ B.emails ∨ e ∈ C'.emails)
    ∧ (∀ mb, mb ∈ (updateUser env st r).1.core.getD [] ↔
        mb ∈ A.core.getD [] ∨ mb ∈ B.core.getD [] ∨ mb ∈ C'.core.getD [])
    ∧ ((updateUser env st r).1.companies =
        affiliationRefresh env ((A.emails ++ B.emails ++ C'.emails).dedup)
          (pyOrList3 A.companies B.companies C'.companies))
    ∧ ((updateUser env st r).2.deletedLog =
        st.deletedLog ++ (if A.seq ≠ 0 ∧ B.seq ≠ 0 then [B] else [])) := by
  have hu : updateUser env st r =
      storeUser (mergeUserProfiles env st A B C').2 (mergeUserProfiles env st A B C').1 := by
    unfold updateUser
    dsimp only
    rw [if_neg hmerge, if_pos hsome, hA, hB, hC]
  have hm := mergeUserProfiles_user env st A B C'
  have hseq' : (mergeUserProfiles env st A B C').1.seq ≠ 0 := by
    rw [hm]
    exact hseq
  have hst1 : (updateUser env st r).1 = (mergeUserProfiles env st A B C').1 := by
    rw [hu]
    unfold storeUser
    rw [if_neg (by simpa using hseq')]
  have hst2 : (updateUser env st r).2.deletedLog =
      (mergeUserProfiles env st A B C').2.deletedLog := by
    rw [hu, storeUser_deletedLog]
  rw [hst1, hst2, hm, mergeUserProfiles_deletedLog]
  refine ⟨rfl, rfl, rfl, rfl, ?_, ?_, rfl, rfl⟩
  · intro e
    simp [List.mem_dedup, List.mem_append, or_assoc]
  · intro mb
    simp [List.mem_dedup, List.mem_append, or_assoc]

/-- C1 witness: the amended merge description evaluated on the
concrete merge example. -/
theorem c1_witness :
    ((updateUser mergeEnv mergeSt mergeRecord).1.seq =
        pyOrNat3 mergeUserA.seq emptyUser.seq mergeFresh.seq)
    ∧ ((updateUser mergeEnv mergeSt mergeRecord).1.user_name =
        pyOrStr3 mergeUserA.user_name emptyUser.user_name mergeFresh.user_name)
    ∧ ((updateUser mergeEnv mergeSt mergeRecord).1.ldap_id =
        pyOrStr3 mergeUserA.ldap_id emptyUser.ldap_id mergeFresh.ldap_id)
    ∧ ((updateUser mergeEnv mergeSt mergeRecord).1.user_id =
        if pyOrStr3 mergeUserA.ldap_id emptyUser.ldap_id mergeFresh.ldap_id ≠ "" ∧
            pyOrStr3 mergeUserA.user_id emptyUser.user_id mergeFresh.user_id ≠
              pyOrStr3 mergeUserA.ldap_id emptyUser.ldap_id mergeFresh.ldap_id
        then pyOrStr3 mergeUserA.ldap_id emptyUser.ldap_id mergeFresh.ldap_id
        else pyOrStr3 mergeUserA.user_id emptyUser.user_id mergeFresh.user_id)
    ∧ (∀ e, e ∈ (updateUser mergeEnv mergeSt mergeRecord).1.emails ↔
        e ∈ mergeUserA.emails ∨ e ∈ emptyUser.emails ∨ e ∈ mergeFresh.emails)
    ∧ (∀ mb, mb ∈ (updateUser mergeEnv mergeSt mergeRecord).1.core.getD [] ↔
        mb ∈ mergeUserA.core.getD [] ∨ mb ∈ emptyUser.core.getD [] ∨
          mb ∈ mergeFresh.core.getD [])
    ∧ ((updateUser mergeEnv mergeSt mergeRecord).1.companies =
        affiliationRefresh mergeEnv
          ((mergeUserA.emails ++ emptyUser.emails ++ mergeFresh.emails).dedup)
          (pyOrList3 mergeUserA.companies emptyUser.companies mergeFresh.companies))
    ∧ ((updateUser mergeEnv mergeSt mergeRecord).2.deletedLog =
        mergeSt.deletedLog ++
          (if mergeUserA.seq ≠ 0 ∧ emptyUser.seq ≠ 0 then [emptyUser] else [])) :=
  c1_merge_first_nonempty mergeEnv mergeSt mergeRecord mergeUserA emptyUser mergeFresh
    (by decide) (by decide) rfl (by decide) (Or.inl (by decide)) (by decide)

/-- `_update_record_and_user` only rewrites the identity and company
fields of a record: everything else survives, and the store it returns
is the one `update_user` produced. -/
theorem updateRecordAndUser_fields (env : Env) (st : St) (r r' : Record) (st' : St)
    (h : updateRecordAndUser env st r = some (r', st')) :
    r'.primary_key = r.primary_key ∧ r'.record_type = r.record_type ∧ r'.date = r.date ∧
    r'.author_email = r.author_email ∧ r'.value = r.value ∧ r'.updated_on = r.updated_on ∧
    r'.number = r.number ∧ r'.patch = r.patch ∧ r'.type = r.type ∧
    st' = (updateUser env st r).2 := by
  unfold updateRecordAndUser at h
  dsimp only at h
  cases hres : resolvedCompany env (updateUser env st r).1 r with
  | none => rw [hres] at h; cases h
  | some company =>
    rw [hres] at h
    have hp := Option.some.inj h
    have hr' : r' = { stampIdentity (updateUser env st r).1 r with company_name := company } :=
      (congrArg Prod.fst hp).symm
    have hst' : st' = (updateUser env st r).2 := (congrArg Prod.snd hp).symm
    subst hr'
    unfold stampIdentity
    dsimp only
    split
    · exact ⟨rfl, rfl, rfl, rfl, rfl, rfl, rfl, rfl, rfl, hst'⟩
    · exact ⟨rfl, rfl, rfl, rfl, rfl, rfl, rfl, rfl, rfl, hst'⟩

/-- The first coauthor loop of `_process_commit` keeps each coauthor
record's email and date. -/
theorem resolveCoauthors_emails_dates (env : Env) :
    ∀ (cs : List Record) (st : St) (out : List Record) (st' : St),
      resolveCoauthors env st cs = some (out, st') →
      out.map (fun x => x.author_email) = cs.map (fun x => x.author_email) ∧
      out.map (fun x => x.date) = cs.map (fun x => x.date) := by
  intro cs
  induction cs with
  | nil =>
    intro st out st' h
    unfold resolveCoauthors at h
    have hp := Option.some.inj h
    have : out = [] := (congrArg Prod.fst hp).symm
    subst this
    exact ⟨rfl, rfl⟩
  | cons c rest ih =>
    intro st out st' h
    unfold resolveCoauthors at h
    cases hc : updateRecordAndUser env st c with
    | none => rw [hc] at h; cases h
    | some p =>
      obtain ⟨c', st1⟩ := p
      rw [hc] at h
      dsimp only at h
      cases hrest : resolveCoauthors env st1 rest with
      | none =>
        rw [hrest] at h
        cases h
      | some q =>
        obtain ⟨cs', st2⟩ := q
        rw [hrest] at h
        dsimp only at h
        have hp := Option.some.inj h
        have hout : out = c' :: cs' := (congrArg Prod.fst hp).symm
        subst hout
        obtain ⟨-, -, hd, he, -⟩ := updateRecordAndUser_fields env st c c' st1 hc
        obtain ⟨ihe, ihd⟩ := ih st1 cs' st2 hrest
        refine ⟨?_, ?_⟩
        · simp only [List.map_cons, ihe, he]
        · simp only [List.map_cons, ihd, hd]

/-- C10 counterexample: a commit with an empty coauthor list whose
author resolves to the robots company produces no record at all, not
exactly one as the claim states. -/
theorem c10_counterexample :
    c10Commit.coauthor = [] ∧ (processCommit c10Env {} c10Commit).2.2 = true ∧
    (processCommit c10Env {} c10Commit).1 = [] := by decide

/-- C10 (amended): a commit event with a non-empty coauthor list emits
one record per coauthor plus one for the original author (appended to
the list), each with primary key commit id ++ that person's email and
with the commit's date; with an empty coauthor list at most one record
is emitted, with primary key the commit id alone and the commit's
date, and none exactly when the author's resolved company is
`*robots`. -/
theorem c10_commit_fanout (env : Env) (st : St) (r : Record) (out : List Record) (st' : St)
    (h : processCommit env st r = (out, st', true)) :
    (r.coauthor = [] →
      (∀ x ∈ out, x.primary_key = r.commit_id ∧ x.date = r.date)
      ∧ (out.length = 1 ∨ out = [])
      ∧ (out = [] ↔ ∃ x st₁,
          updateRecordAndUser env st
            { r with primary_key := r.commit_id, loc := r.lines_added + r.lines_deleted
                     author_email := lowerStr r.author_email, commit_date := r.date }
            = some (x, st₁) ∧ x.company_name = "*robots"))
    ∧ (r.coauthor ≠ [] →
        out.map (fun x => x.primary_key) =
          r.coauthor.map (fun c => r.commit_id ++ c.author_email)
            ++ [r.commit_id ++ lowerStr r.author_email]
        ∧ (∀ x ∈ out, x.date = r.date)
        ∧ out.length = r.coauthor.length + 1) := by
  unfold processCommit at h
  dsimp only at h
  constructor
  · intro hco
    rw [hco] at h ⊢
    dsimp only at h
    cases hup : updateRecordAndUser env st
        { r with primary_key := r.commit_id, loc := r.lines_added + r.lines_deleted
                 author_email := lowerStr r.author_email, commit_date := r.date
                 coauthor := [] } with
    | none => rw [hup] at h; cases h
    | some p =>
      obtain ⟨x0, st1⟩ := p
      rw [hup] at h
      dsimp only at h
      have hout := congrArg (fun t : List Record × St × Bool => t.1) h
      dsimp only at hout
      obtain ⟨hpk, -, hdate, -⟩ := updateRecordAndUser_fields env st _ x0 st1 hup
      by_cases hrob : x0.company_name ≠ "*robots"
      · rw [if_pos hrob] at hout
        subst hout
        refine ⟨?_, Or.inl rfl, ?_⟩
        · intro x hx
          rw [List.mem_singleton] at hx
          subst hx
          exact ⟨hpk, hdate⟩
        · constructor
          · intro habs; cases habs
          · rintro ⟨x, st₁, hx, hxrob⟩
            have hx1 : x0 = x := congrArg Prod.fst (Option.some.inj hx)
            rw [← hx1] at hxrob
            exact absurd hxrob hrob
      · rw [if_neg hrob] at hout
        subst hout
        refine ⟨?_, Or.inr rfl, ?_⟩
        · intro x hx
          simp at hx
        · exact Iff.intro (fun _ => Exists.intro x0 (Exists.intro st1
            (And.intro rfl (not_not.mp hrob)))) (fun _ => rfl)
  · intro hne
    obtain ⟨c, cs, hcc⟩ := List.exists_cons_of_ne_nil hne
    rw [hcc] at h ⊢
    dsimp only at h
    cases hres : resolveCoauthors env st
        (((c :: cs) ++ [Coauthor.mk r.author_name (lowerStr r.author_email)]).map
          (coauthorRecord r.date)) with
    | none => rw [hres] at h; cases h
    | some q =>
      obtain ⟨rs, st1⟩ := q
      rw [hres] at h
      dsimp only at h
      have hout := congrArg (fun t : List Record × St × Bool => t.1) h
      dsimp only at hout
      obtain ⟨hemails, hdates⟩ :=
        resolveCoauthors_emails_dates env _ st rs st1 hres
      subst hout
      refine ⟨?_, ?_, ?_⟩
      · have e1 : ∀ base : Record, (rs.map (coauthorCommitRecord base)).map
            (fun x => x.primary_key) =
            (rs.map (fun x => x.author_email)).map (fun e => base.primary_key ++ e) := by
          intro base
          simp [coauthorCommitRecord]
        rw [e1, hemails]
        simp [coauthorRecord]
      · intro x hx
        rw [List.mem_map] at hx
        obtain ⟨y, hy, hxy⟩ := hx
        subst hxy
        have hymem : y.date ∈ rs.map (fun x => x.date) := List.mem_map_of_mem _ hy
        rw [hdates] at hymem
        rw [List.mem_map] at hymem
        obtain ⟨z, hz, hzy⟩ := hymem
        rw [List.mem_map] at hz
        obtain ⟨w, -, hwz⟩ := hz
        subst hwz
        simp only [coauthorRecord] at hzy
        simp [coauthorCommitRecord, ← hzy]
      · have h1 : ∀ base : Record, (rs.map (coauthorCommitRecord base)).length =
            (rs.map (fun x => x.author_email)).length := by
          intro base
          simp
        rw [h1, hemails]
        simp

/-- C10 witness: the coauthored commit example fans out into coauthor
record plus author record with the stated primary keys and dates. -/
theorem c10_witness :
    (c10CoCommit.coauthor = [] →
      (∀ x ∈ (processCommit envPlain {} c10CoCommit).1,
        x.primary_key = c10CoCommit.commit_id ∧ x.date = c10CoCommit.date)
      ∧ ((processCommit envPlain {} c10CoCommit).1.length = 1 ∨
          (processCommit envPlain {} c10CoCommit).1 = [])
      ∧ ((processCommit envPlain {} c10CoCommit).1 = [] ↔ ∃ x st₁,
          updateRecordAndUser envPlain {}
            { c10CoCommit with
                primary_key := c10CoCommit.commit_id
                loc := c10CoCommit.lines_added + c10CoCommit.lines_deleted
                author_email := lowerStr c10CoCommit.author_email
                commit_date := c10CoCommit.date }
            = some (x, st₁) ∧ x.company_name = "*robots"))
    ∧ (c10CoCommit.coauthor ≠ [] →
        (processCommit envPlain {} c10CoCommit).1.map (fun x => x.primary_key) =
          c10CoCommit.coauthor.map (fun c => c10CoCommit.commit_id ++ c.author_email)
            ++ [c10CoCommit.commit_id ++ lowerStr c10CoCommit.author_email]
        ∧ (∀ x ∈ (processCommit envPlain {} c10CoCommit).1, x.date = c10CoCommit.date)
        ∧ (processCommit envPlain {} c10CoCommit).1.length =
            c10CoCommit.coauthor.length + 1) :=
  c10_commit_fanout envPlain {} c10CoCommit (processCommit envPlain {} c10CoCommit).1
    (processCommit envPlain {} c10CoCommit).2.1 (by decide)

/-- C9 witness: a robots interval-scan result survives even though the
concrete record carries an author email. -/
theorem c9_witness :
    ∃ r' st', updateRecordAndUser robotsEnv robotsSt robotsRecord = some (r', st')
      ∧ ("*robots" = "*robots" → r'.company_name = "*robots")
      ∧ ("*robots" ≠ "*robots" →
          ∀ c, getCompanyByEmail robotsEnv.domains robotsRecord.author_email = some c →
            c ≠ "" → r'.company_name = c)
      ∧ ("*robots" ≠ "*robots" →
          getCompanyByEmail robotsEnv.domains robotsRecord.author_email = none →
            r'.company_name = "*robots") :=
  c9_email_company_precedence robotsEnv robotsSt robotsRecord _ "*robots" rfl (by decide)

end Spectrometer

namespace Spectrometer

/-- The users persisted by the core-contributor pass are exactly those
whose canonical core list changed, each with its core replaced. -/
theorem coreUsersGo_stored (now : Int) (records : List Record) :
    ∀ (users : List (String × User)) (st : St),
      (∀ kv ∈ users, kv.2.seq ≠ 0) →
      (coreUsersGo now records st users).2 =
        (users.map (fun kv => kv.2)).filterMap (fun u =>
          if some (coreOf now records u.user_id) ≠ u.core
          then some { u with core := some (coreOf now records u.user_id) }
          else none) := by
  intro users
  induction users with
  | nil => intro st _; rfl
  | cons kv rest ih =>
    intro st hseq
    obtain ⟨k, u⟩ := kv
    unfold coreUsersGo
    dsimp only
    by_cases hch : some (coreOf now records u.user_id) ≠ u.core
    · rw [if_pos hch]
      have hstamp : (storeUser st { u with core := some (coreOf now records u.user_id) }).1 =
          { u with core := some (coreOf now records u.user_id) } := by
        unfold storeUser
        dsimp only
        rw [if_neg (hseq (k, u) (List.mem_cons_self _ _))]
      rw [List.map_cons, List.filterMap_cons]
      dsimp only
      rw [if_pos hch]
      rw [hstamp, ih _ (fun kv hkv => hseq kv (List.mem_cons_of_mem _ hkv))]
    · rw [if_neg hch]
      rw [List.map_cons, List.filterMap_cons]
      dsimp only
      rw [if_neg hch]
      exact ih st (fun kv hkv => hseq kv (List.mem_cons_of_mem _ hkv))

/-- C4 counterexample: a stored Workflow mark with value +2 inside the
90-day window also feeds the caster's core set, although the claim
restricts the accumulation to Code-Review marks. -/
theorem c4_counterexample :
    (∀ rec ∈ c4St.records, rec.type ≠ "Code-Review")
    ∧ (determineCoreContributors c4Now c4St).map
        (fun p => p.2.map (fun u => (u.user_id, u.core))) =
      some [("u1", some [("m", "b")])] := by decide

/-- C4 (amended): the core-contributor pass accumulates the
`(module, branch)` pair into the casting user's core set exactly for
the stored "mark" records dated within the last 90 days carrying value
+2 or -2, regardless of the approval type; each run replaces each
user's entire core set, and exactly the users whose core set changed
are persisted. -/
theorem c4_core_determination (now : Int) (st : St)
    (hval : ∀ rec ∈ st.records, rec.record_type = "mark" → rec.date > now - 7776000 →
      rec.value ≠ none)
    (hseq : ∀ kv ∈ st.users, kv.2.seq ≠ 0) :
    ∃ st' stored, determineCoreContributors now st = some (st', stored)
    ∧ stored = (st.users.map (fun kv => kv.2)).filterMap (fun u =>
        if some (coreOf now st.records u.user_id) ≠ u.core
        then some { u with core := some (coreOf now st.records u.user_id) }
        else none)
    ∧ (∀ uid mb, mb ∈ coreOf now st.records uid ↔
        ∃ rec ∈ st.records, rec.record_type = "mark" ∧ rec.date > now - 7776000 ∧
          (rec.value = some 2 ∨ rec.value = some (-2)) ∧ rec.user_id = uid ∧
          mb = (rec.module, rec.branch)) := by
  have hguard : (st.records.any (fun r =>
      r.record_type = "mark" ∧ r.date > now - 7776000 ∧ r.value = none)) = false := by
    rw [List.any_eq_false]
    intro rec hrec
    simp only [decide_eq_true_eq, not_and]
    intro h1 h2 h3
    exact hval rec hrec h1 h2 h3
  refine ⟨(coreUsersGo now st.records st st.users).1,
          (coreUsersGo now st.records st st.users).2, ?_, ?_, ?_⟩
  · unfold determineCoreContributors
    rw [if_neg (by rw [hguard]; exact Bool.false_ne_true)]
  · exact coreUsersGo_stored now st.records st.users st hseq
  · intro uid mb
    unfold coreOf qualifyingCoreMark
    rw [List.mem_dedup, List.mem_map]
    constructor
    · rintro ⟨rec, hrec, hmb⟩
      rw [List.mem_filter] at hrec
      obtain ⟨hmem, hpred⟩ := hrec
      simp only [decide_eq_true_eq] at hpred
      exact ⟨rec, hmem, hpred.1.1, hpred.1.2.1, hpred.1.2.2, hpred.2, hmb.symm⟩
    · rintro ⟨rec, hmem, h1, h2, h3, h4, h5⟩
      refine ⟨rec, ?_, h5.symm⟩
      rw [List.mem_filter]
      refine ⟨hmem, ?_⟩
      simp only [decide_eq_true_eq]
      exact ⟨⟨h1, h2, h3⟩, h4⟩

/-- C4 witness: the amended description instantiated on the Workflow
mark store. -/
theorem c4_witness :
    ∃ st' stored, determineCoreContributors c4Now c4St = some (st', stored)
    ∧ stored = (c4St.users.map (fun kv => kv.2)).filterMap (fun u =>
        if some (coreOf c4Now c4St.records u.user_id) ≠ u.core
        then some { u with core := some (coreOf c4Now c4St.records u.user_id) }
        else none)
    ∧ (∀ uid mb, mb ∈ coreOf c4Now c4St.records uid ↔
        ∃ rec ∈ c4St.records, rec.record_type = "mark" ∧ rec.date > c4Now - 7776000 ∧
          (rec.value = some 2 ∨ rec.value = some (-2)) ∧ rec.user_id = uid ∧
          mb = (rec.module, rec.branch)) :=
  c4_core_determination c4Now c4St (by decide) (by decide)

end Spectrometer

namespace Spectrometer

/-- A stable date-descending list is left unchanged by the sort. -/
theorem sortDescByDate_of_sorted :
    ∀ ms : List Record, ms.Pairwise (fun a b => b.date ≤ a.date) →
      sortDescByDate ms = ms := by
  intro ms
  induction ms with
  | nil => intro _; rfl
  | cons x xs ih =>
    intro hp
    rw [List.pairwise_cons] at hp
    obtain ⟨hx, hxs⟩ := hp
    unfold sortDescByDate
    rw [ih hxs]
    cases xs with
    | nil => rfl
    | cons y t =>
      unfold insertDescByDate
      rw [if_pos (hx y (List.mem_cons_self y t))]

/-- With a non-zero baseline every remaining mark is flagged by the
sign test against the baseline. -/
theorem closePatchGo_after_baseline (cores : List (String × String × String))
    (vc : Int) (hvc : vc ≠ 0) :
    ∀ post : List Record, (∀ m ∈ post, ∃ v, m.value = some v) →
      (closePatchGo cores vc post).map Prod.fst =
        some (post.map (fun m =>
          { m with disagreement := some (signOpposite vc (m.value.getD 0)) })) := by
  intro post
  induction post with
  | nil => intro _; rfl
  | cons m t ih =>
    intro hv
    obtain ⟨v, hval⟩ := hv m (List.mem_cons_self m t)
    unfold closePatchGo
    rw [if_neg (by intro hc; exact hvc hc.1)]
    rw [if_neg hvc, hval]
    dsimp only [Option.map_some']
    have iht := ih (fun x hx => hv x (List.mem_cons_of_mem m hx))
    obtain ⟨p, hgo, hp⟩ := Option.map_eq_some'.mp iht
    rw [hgo]
    dsimp only [Option.map_some']
    rw [Option.some_inj, List.map_cons, hp, hval]
    rfl

/-- Before a baseline exists, marks by non-core users are flagged
false and processing continues. -/
theorem closePatchGo_before_baseline (cores : List (String × String × String)) :
    ∀ (pre k L : List Record), (∀ m ∈ pre, ¬ coreTriple m ∈ cores) →
      (closePatchGo cores 0 k).map Prod.fst = some L →
      (closePatchGo cores 0 (pre ++ k)).map Prod.fst =
        some (pre.map (fun m => { m with disagreement := some false }) ++ L) := by
  intro pre
  induction pre with
  | nil =>
    intro k L _ hk
    simpa using hk
  | cons m t ih =>
    intro k L hnc hk
    rw [List.cons_append]
    unfold closePatchGo
    rw [if_neg (by intro hc; exact hnc m (List.mem_cons_self m t) hc.2)]
    rw [if_pos rfl]
    dsimp only
    have iht := ih k L (fun x hx => hnc x (List.mem_cons_of_mem m hx)) hk
    obtain ⟨p, hgo, hp⟩ := Option.map_eq_some'.mp iht
    rw [hgo]
    dsimp only [Option.map_some']
    rw [Option.some_inj, hp]
    rfl

/-- C3 counterexample: on a two-mark group the baseline core mark is
skipped, not flagged: its stale `disagreement = true` survives,
although the claim says every mark other than a contradicting
subsequent one is flagged false. -/
theorem c3_counterexample :
    ((c3CoreMark.module, c3CoreMark.branch, c3CoreMark.user_id) ∈ c3Cores)
    ∧ (closePatch c3Cores [c3CoreMark, c3LaterMark]).map
        (fun p => p.1.map (fun m => m.disagreement)) = some [some true, some true] := by
  decide

/-- C3 (amended): for a finalized date-descending group of at least 2
marks whose values are all present and non-zero, with all marks before
the first core-cast mark non-core: marks processed before the baseline
are flagged false, the baseline core mark itself is left untouched
(its stored flag survives), and every chronologically earlier mark is
flagged true exactly when its sign contradicts the baseline value;
groups with fewer than 2 marks are returned unchanged with nothing
yielded. -/
theorem c3_disagreement_flags (cores : List (String × String × String))
    (pre post : List Record) (mc : Record)
    (hsorted : (pre ++ mc :: post).Pairwise (fun a b => b.date ≤ a.date))
    (hlen : 2 ≤ (pre ++ mc :: post).length)
    (hvals : ∀ m ∈ pre ++ mc :: post, ∃ v, m.value = some v ∧ v ≠ 0)
    (hpre : ∀ m ∈ pre, ¬ coreTriple m ∈ cores)
    (hmc : coreTriple mc ∈ cores) :
    (∃ vc, mc.value = some vc ∧
      (closePatch cores (pre ++ mc :: post)).map Prod.fst =
        some (pre.map (fun m => { m with disagreement := some false })
          ++ mc :: post.map (fun m =>
              { m with disagreement := some (signOpposite vc (m.value.getD 0)) })))
    ∧ (∀ ms : List Record, ms.length < 2 → closePatch cores ms = some (ms, [])) := by
  constructor
  · obtain ⟨vc, hvc, hvc0⟩ := hvals mc (by
      rw [List.mem_append]
      exact Or.inr (List.mem_cons_self mc post))
    refine ⟨vc, hvc, ?_⟩
    have hcons : (closePatchGo cores 0 (mc :: post)).map Prod.fst =
        some (mc :: post.map (fun m =>
          { m with disagreement := some (signOpposite vc (m.value.getD 0)) })) := by
      unfold closePatchGo
      rw [if_pos ⟨rfl, hmc⟩, hvc]
      dsimp only
      have hsplit := closePatchGo_after_baseline cores vc hvc0 post
        (fun x hx => (hvals x (by
          rw [List.mem_append]
          exact Or.inr (List.mem_cons_of_mem mc hx))).imp (fun v hv => hv.1))
      obtain ⟨p, hgo, hp⟩ := Option.map_eq_some'.mp hsplit
      rw [hgo]
      dsimp only [Option.map_some']
      rw [Option.some_inj, hp]
    unfold closePatch
    rw [if_neg (by omega), sortDescByDate_of_sorted _ hsorted]
    exact closePatchGo_before_baseline cores pre (mc :: post) _ hpre hcons
  · intro ms hms
    unfold closePatch
    rw [if_pos hms]

end Spectrometer

namespace Spectrometer

/-- C3 witness: the amended flag description on a three-mark group. -/
theorem c3_witness :
    (∃ vc, c3CoreMark.value = some vc ∧
      (closePatch c3Cores ([c3PreMark] ++ c3CoreMark :: [c3LaterMark])).map Prod.fst =
        some ([c3PreMark].map (fun m => { m with disagreement := some false })
          ++ c3CoreMark :: [c3LaterMark].map (fun m =>
              { m with disagreement := some (signOpposite vc (m.value.getD 0)) })))
    ∧ (∀ ms : List Record, ms.length < 2 → closePatch c3Cores ms = some (ms, [])) :=
  c3_disagreement_flags c3Cores [c3PreMark] [c3LaterMark] c3CoreMark
    (by decide) (by decide)
    (by
      intro m hm
      simp only [List.singleton_append, List.mem_cons, List.not_mem_nil, or_false] at hm
      rcases hm with h | h | h
      · subst h; exact ⟨1, rfl, by decide⟩
      · subst h; exact ⟨2, rfl, by decide⟩
      · subst h; exact ⟨-1, rfl, by decide⟩)
    (by decide) (by decide)

end Spectrometer

namespace Spectrometer

/-- C7 counterexample: the user-info pass is not idempotent — the
first run persists a record whose `ldap_id` was rewritten to a
directory id whose stored user document differs, so the second run on
the unchanged store emits that record again. -/
theorem c7_counterexample :
    (updateRecordsWithUserInfo c7Env c7St).2.2 = true
    ∧ (updateRecordsWithUserInfo c7Env
        (updateRecordsWithUserInfo c7Env c7St).2.1).1.length = 1 := by decide

/-- Within the release pass, the chosen release only depends on the
primary key and the date, so re-stamping the release keeps it. -/
theorem releaseOf_set_release (env : Env) (idx : List (String × String)) (r : Record)
    (v : Option String) : releaseOf env idx { r with release := v } = releaseOf env idx r :=
  rfl

/-- Soundness of one release-pass scan that completed: every emitted
record carries exactly its chosen release, and every stored record
whose release disagrees with its chosen one has an emitted record
under its primary key. -/
theorem releasesGo_sound (env : Env) (idx : List (String × String)) :
    ∀ rs : List Record, (releasesGo env idx rs).2 = true →
      (∀ x ∈ (releasesGo env idx rs).1,
        ∃ rel, releaseOf env idx x = some rel ∧ x.release = some rel)
      ∧ (∀ r ∈ rs, (∀ rel, ¬ (releaseOf env idx r = some rel ∧ r.release = some rel)) →
          ∃ x ∈ (releasesGo env idx rs).1, x.primary_key = r.primary_key) := by
  intro rs
  induction rs with
  | nil =>
    intro _
    constructor
    · intro x hx; simp [releasesGo] at hx
    · intro r hr; simp at hr
  | cons r rest ih =>
    intro hok
    have heq0 : releasesGo env idx (r :: rest) =
        (match releaseOf env idx r, r.release with
          | some rel, some old =>
            if old ≠ rel then
              ({ r with release := some rel } :: (releasesGo env idx rest).1,
                (releasesGo env idx rest).2)
            else releasesGo env idx rest
          | _, _ => ([], false)) := rfl
    cases hrel : releaseOf env idx r with
    | none =>
      rw [hrel] at heq0
      dsimp only at heq0
      rw [heq0] at hok
      cases hok
    | some rel =>
      cases hold : r.release with
      | none =>
        rw [hrel, hold] at heq0
        dsimp only at heq0
        rw [heq0] at hok
        cases hok
      | some old =>
        rw [hrel, hold] at heq0
        dsimp only at heq0
        by_cases hne : old ≠ rel
        · rw [if_pos hne] at heq0
          have heq := heq0
          rw [heq] at hok ⊢
          dsimp only at hok ⊢
          have ihr := ih hok
          constructor
          · intro x hx
            rcases List.mem_cons.mp hx with hx1 | hx2
            · subst hx1
              exact ⟨rel, by rw [releaseOf_set_release, hrel], rfl⟩
            · exact ihr.1 x hx2
          · intro q hq hbad
            rcases List.mem_cons.mp hq with hq1 | hq2
            · subst hq1
              exact ⟨{ q with release := some rel }, List.mem_cons_self _ _, rfl⟩
            · obtain ⟨x, hx, hpk⟩ := ihr.2 q hq2 hbad
              exact ⟨x, List.mem_cons_of_mem _ hx, hpk⟩
        · rw [if_neg hne] at heq0
          have heq := heq0
          rw [heq] at hok ⊢
          have ihr := ih hok
          constructor
          · exact ihr.1
          · intro q hq hbad
            rcases List.mem_cons.mp hq with hq1 | hq2
            · subst hq1
              exact absurd ⟨hrel, by rw [hold, not_not.mp hne]⟩ (hbad rel)
            · exact ihr.2 q hq2 hbad
  
/-- A record list whose releases all agree with their chosen values is
a fixpoint of the release scan: nothing is emitted. -/
theorem releasesGo_fixpoint (env : Env) (idx : List (String × String)) :
    ∀ rs : List Record,
      (∀ r ∈ rs, ∃ rel, releaseOf env idx r = some rel ∧ r.release = some rel) →
      releasesGo env idx rs = ([], true) := by
  intro rs
  induction rs with
  | nil => intro _; rfl
  | cons r rest ih =>
    intro h
    obtain ⟨rel, hrel, hold⟩ := h r (List.mem_cons_self r rest)
    unfold releasesGo
    rw [hrel, hold]
    dsimp only
    rw [if_neg (by simp)]
    exact ih (fun x hx => h x (List.mem_cons_of_mem r hx))

/-- Membership after one keyed upsert. -/
theorem mem_upsertRecord (recs : List Record) (r x : Record)
    (hx : x ∈ upsertRecord recs r) :
    x = r ∨ (x ∈ recs ∧ x.primary_key ≠ r.primary_key) := by
  unfold upsertRecord at hx
  split at hx
  · rw [List.mem_map] at hx
    obtain ⟨y, hy, hxy⟩ := hx
    by_cases hpk : y.primary_key = r.primary_key
    · rw [if_pos hpk] at hxy
      exact Or.inl hxy.symm
    · rw [if_neg hpk] at hxy
      subst hxy
      exact Or.inr ⟨hy, hpk⟩
  · rename_i hany
    rw [List.mem_append] at hx
    rcases hx with h1 | h2
    · refine Or.inr ⟨h1, ?_⟩
      rw [Bool.not_eq_true, List.any_eq_false] at hany
      have := hany x h1
      simpa using this
    · rw [List.mem_singleton] at h2
      exact Or.inl h2

/-- Membership after a bulk upsert: a record is one of the upserted
ones, or an untouched original whose key none of them carries. -/
theorem mem_setRecords :
    ∀ (news recs : List Record) (x : Record), x ∈ setRecords recs news →
      x ∈ news ∨ (x ∈ recs ∧ ∀ n ∈ news, x.primary_key ≠ n.primary_key) := by
  intro news
  induction news with
  | nil =>
    intro recs x hx
    exact Or.inr ⟨hx, fun n hn => absurd hn (List.not_mem_nil n)⟩
  | cons n ns ih =>
    intro recs x hx
    have hx' : x ∈ setRecords (upsertRecord recs n) ns := hx
    rcases ih (upsertRecord recs n) x hx' with h1 | ⟨h2, h3⟩
    · exact Or.inl (List.mem_cons_of_mem n h1)
    · rcases mem_upsertRecord recs n x h2 with he | ⟨hm, hpk⟩
      · subst he
        exact Or.inl (List.mem_cons_self x ns)
      · refine Or.inr ⟨hm, ?_⟩
        intro m hm'
        rcases List.mem_cons.mp hm' with h | h
        · subst h; exact hpk
        · exact h3 m h

/-- C7 (amended): not every recomputation pass is idempotent.  The
release-reassignment pass is: a completed first run leaves a store on
which the second run emits zero records and completes.  The user-info
refresh pass is not (see the counterexample): a record whose persisted
`ldap_id` was rewritten to a directory id keyed to a user document
with a different sequence number is re-emitted on the second run. -/
theorem c7_release_pass_idempotent (env : Env) (idx : List (String × String)) (st : St)
    (h1 : (updateRecordsWithReleases env idx st).2.2 = true) :
    (updateRecordsWithReleases env idx (updateRecordsWithReleases env idx st).2.1).1 = []
    ∧ (updateRecordsWithReleases env idx
        (updateRecordsWithReleases env idx st).2.1).2.2 = true := by
  have hok : (releasesGo env idx st.records).2 = true := h1
  obtain ⟨hA, hB⟩ := releasesGo_sound env idx st.records hok
  have hgood : ∀ x ∈ setRecords st.records (releasesGo env idx st.records).1,
      ∃ rel, releaseOf env idx x = some rel ∧ x.release = some rel := by
    intro x hx
    rcases mem_setRecords _ _ _ hx with hemit | ⟨holdm, hnone⟩
    · exact hA x hemit
    · by_contra hbad
      push_neg at hbad
      obtain ⟨y, hy, hpk⟩ := hB x holdm (fun rel hc => hbad rel hc.1 hc.2)
      exact hnone y hy hpk.symm
  have hfix := releasesGo_fixpoint env idx _ hgood
  have hrec : (updateRecordsWithReleases env idx st).2.1.records =
      setRecords st.records (releasesGo env idx st.records).1 := rfl
  constructor
  · show (releasesGo env idx (updateRecordsWithReleases env idx st).2.1.records).1 = []
    rw [hrec, hfix]
  · show (releasesGo env idx (updateRecordsWithReleases env idx st).2.1.records).2 = true
    rw [hrec, hfix]

/-- C7 witness: the release pass run twice on a store it completes on. -/
theorem c7_witness :
    (updateRecordsWithReleases c7Env [] (updateRecordsWithReleases c7Env [] c7RelSt).2.1).1 = []
    ∧ (updateRecordsWithReleases c7Env []
        (updateRecordsWithReleases c7Env [] c7RelSt).2.1).2.2 = true :=
  c7_release_pass_idempotent c7Env [] c7RelSt (by decide)

end Spectrometer

namespace Spectrometer

/-! ### Store well-formedness and success of `_update_record_and_user` -/

/-- `_find_company` succeeds on every non-empty interval list. -/
theorem findCompany_isSome (companies : List CompanyInterval) (date : Int)
    (h : companies ≠ []) : (findCompany companies date).isSome := by
  unfold findCompany
  cases hf : companies.find? (fun r => date < r.end_date) with
  | some r => rfl
  | none =>
    have hl : companies.getLast?.isSome := List.getLast?_isSome.mpr h
    cases hc : companies.getLast? with
    | none => rw [hc] at hl; exact Bool.noConfusion hl
    | some r => rfl

/-- The last element of a list is a member. -/
theorem mem_of_getLast? {α : Type} : ∀ {l : List α} {a : α}, l.getLast? = some a → a ∈ l := by
  intro l
  induction l with
  | nil => intro a h; cases h
  | cons x xs ih =>
    intro a h
    cases xs with
    | nil =>
      simp only [List.getLast?_singleton] at h
      rw [← Option.some.inj h]
      exact List.mem_cons_self x []
    | cons y ys =>
      rw [List.getLast?_cons_cons] at h
      exact List.mem_cons_of_mem x (ih h)

/-- Python first-truthy choice on lists is non-empty when the fallback
is. -/
theorem pyOrList3_ne_nil {α : Type} (a b c : List α) (h : c ≠ []) :
    pyOrList3 a b c ≠ [] := by
  unfold pyOrList3
  by_cases ha : a.isEmpty
  · rw [if_pos ha]
    by_cases hb : b.isEmpty
    · rw [if_pos hb]; exact h
    · rw [if_neg hb]
      intro hcon
      exact hb (List.isEmpty_iff.mpr hcon)
  · rw [if_neg ha]
    intro hcon
    exact ha (List.isEmpty_iff.mpr hcon)

/-- The affiliation refresh never empties a non-empty interval list. -/
theorem affiliationRefresh_ne_nil (env : Env) (es : List String)
    (cs : List CompanyInterval) (h : cs ≠ []) :
    affiliationRefresh env es cs ≠ [] := by
  induction es with
  | nil => exact h
  | cons e rest ih =>
    unfold affiliationRefresh
    cases hg : getCompanyByEmail env.domains e with
    | none => exact ih
    | some c =>
      cases cs with
      | nil => exact absurd rfl h
      | cons ci t =>
        cases t with
        | nil =>
          dsimp only
          by_cases hcc : c ≠ "" ∧ ci.company_name = independent
          · rw [if_pos hcc]
            exact List.cons_ne_nil _ _
          · rw [if_neg hcc]
            exact ih
        | cons d t' => exact ih

/-- `_create_user` always writes one interval. -/
theorem createUser_companies_ne_nil (env : Env) (l e n : String) :
    (createUser env l e n).companies ≠ [] :=
  List.cons_ne_nil _ _

/-- The seq stamping of the store does not touch the companies. -/
theorem storeUser_fst_companies (st : St) (u : User) :
    (storeUser st u).1.companies = u.companies := by
  unfold storeUser
  dsimp only
  split <;> rfl

/-- A merged profile keeps a non-empty interval list when the fresh
candidate's is non-empty. -/
theorem mergeUserProfiles_companies_ne_nil (env : Env) (st : St) (a b c : User)
    (hc : c.companies ≠ []) : (mergeUserProfiles env st a b c).1.companies ≠ [] := by
  rw [mergeUserProfiles_user env st a b c]
  exact affiliationRefresh_ne_nil env _ _ (pyOrList3_ne_nil _ _ _ hc)

/-- A well-formed store resolves every user lookup to a document with
companies. -/
theorem loadUser_companies_ne_nil (st : St) (hinv : usersInv st) (k : String) (u : User)
    (h : loadUser st k = some u) : u.companies ≠ [] := by
  unfold loadUser at h
  by_cases hk : k = ""
  · rw [if_pos hk] at h; cases h
  · rw [if_neg hk] at h
    unfold alookup at h
    cases hf : st.users.find? (fun kv => kv.1 = k) with
    | none => rw [hf] at h; cases h
    | some kv =>
      rw [hf] at h
      have hm := List.mem_of_find?_eq_some hf
      have hu : kv.2 = u := by simpa using h
      rw [← hu]
      exact hinv kv hm

/-- The user `update_user` returns always has a company interval. -/
theorem updateUser_companies_ne_nil (env : Env) (st : St) (r : Record)
    (hinv : usersInv st) : (updateUser env st r).1.companies ≠ [] := by
  unfold updateUser
  dsimp only
  by_cases hskip : seqOf (loadUser st r.author_email) = seqOf (loadUser st r.ldap_id) ∧
      seqOf (loadUser st r.author_email) ≠ 0
  · rw [if_pos hskip]
    cases hue : loadUser st r.author_email with
    | none => exact createUser_companies_ne_nil env r.ldap_id r.author_email r.author_name
    | some u => exact loadUser_companies_ne_nil st hinv r.author_email u hue
  · rw [if_neg hskip]
    by_cases hsome : (loadUser st r.author_email).isSome ∨ (loadUser st r.ldap_id).isSome
    · rw [if_pos hsome, storeUser_fst_companies]
      exact mergeUserProfiles_companies_ne_nil env st _ _ _
        (createUser_companies_ne_nil env r.ldap_id r.author_email r.author_name)
    · rw [if_neg hsome, storeUser_fst_companies]
      exact createUser_companies_ne_nil env r.ldap_id r.author_email r.author_name

/-- A member of `aset l k v` is an old member or carries the written
value. -/
theorem mem_aset {α : Type} (l : List (String × α)) (k : String) (v : α)
    (kv : String × α) (h : kv ∈ aset l k v) : kv ∈ l ∨ kv.2 = v := by
  unfold aset at h
  split at h
  · rcases List.mem_map.mp h with ⟨kv', hmem, heq⟩
    by_cases hk : kv'.1 = k
    · rw [if_pos hk] at heq
      right
      rw [← heq]
    · rw [if_neg hk] at heq
      left
      rw [← heq]
      exact hmem
  · rcases List.mem_append.mp h with h' | h'
    · exact Or.inl h'
    · right
      rw [List.mem_singleton.mp h']

/-- Folding `aset` writes of one value over any key list only ever adds
that value. -/
theorem mem_aset_foldl {α : Type} (v : α) :
    ∀ (keys : List String) (l : List (String × α)) (kv : String × α),
      kv ∈ keys.foldl (fun us k => aset us k v) l → kv ∈ l ∨ kv.2 = v := by
  intro keys
  induction keys with
  | nil => intro l kv h; exact Or.inl h
  | cons k rest ih =>
    intro l kv h
    rcases ih (aset l k v) kv h with h' | h'
    · exact mem_aset l k v kv h'
    · exact Or.inr h'

/-- Persisting a user with companies keeps the store well-formed. -/
theorem storeUser_inv (st : St) (u : User) (hinv : usersInv st)
    (hu : u.companies ≠ []) : usersInv (storeUser st u).2 := by
  intro kv hmem
  unfold storeUser at hmem
  dsimp only at hmem
  rcases mem_aset_foldl _ _ _ _ hmem with h' | h'
  · exact hinv kv h'
  · rw [h']
    split <;> exact hu

/-- Deleting a user keeps the store well-formed. -/
theorem deleteUser_inv (st : St) (u : User) (hinv : usersInv st) :
    usersInv (deleteUser st u) := by
  intro kv hmem
  unfold deleteUser at hmem
  dsimp only at hmem
  exact hinv kv (List.mem_of_mem_filter hmem)

/-- The store side of a merge keeps the store well-formed. -/
theorem mergeUserProfiles_snd_inv (env : Env) (st : St) (a b c : User)
    (hinv : usersInv st) : usersInv (mergeUserProfiles env st a b c).2 := by
  unfold mergeUserProfiles
  dsimp only
  split
  · exact deleteUser_inv st b hinv
  · exact hinv

/-- `update_user` keeps the store well-formed. -/
theorem updateUser_snd_inv (env : Env) (st : St) (r : Record)
    (hinv : usersInv st) : usersInv (updateUser env st r).2 := by
  unfold updateUser
  dsimp only
  split
  · exact hinv
  · split
    · exact storeUser_inv _ _ (mergeUserProfiles_snd_inv env st _ _ _ hinv)
        (mergeUserProfiles_companies_ne_nil env st _ _ _
          (createUser_companies_ne_nil env r.ldap_id r.author_email r.author_name))
    · exact storeUser_inv st _ hinv
        (createUser_companies_ne_nil env r.ldap_id r.author_email r.author_name)

/-- On a well-formed store `_update_record_and_user` never crashes. -/
theorem updateRecordAndUser_isSome (env : Env) (st : St) (r : Record)
    (hinv : usersInv st) : (updateRecordAndUser env st r).isSome := by
  unfold updateRecordAndUser resolvedCompany
  dsimp only
  have h1 := findCompany_isSome (updateUser env st r).1.companies r.date
    (updateUser_companies_ne_nil env st r hinv)
  cases hf : findCompany (updateUser env st r).1.companies r.date with
  | none => rw [hf] at h1; exact Bool.noConfusion h1
  | some company => rfl

/-- On a well-formed store `_update_record_and_user` succeeds, keeps the
listed non-identity fields and keeps the store well-formed. -/
theorem updateRecordAndUser_exists (env : Env) (st : St) (q : Record)
    (hinv : usersInv st) :
    ∃ r' st', updateRecordAndUser env st q = some (r', st') ∧
      r'.primary_key = q.primary_key ∧ r'.record_type = q.record_type ∧
      r'.date = q.date ∧ r'.author_email = q.author_email ∧ r'.value = q.value ∧
      r'.updated_on = q.updated_on ∧ r'.number = q.number ∧ r'.patch = q.patch ∧
      r'.type = q.type ∧ usersInv st' := by
  obtain ⟨⟨r', st'⟩, hres⟩ := Option.isSome_iff_exists.mp
    (updateRecordAndUser_isSome env st q hinv)
  obtain ⟨h1, h2, h3, h4, h5, h6, h7, h8, h9, h10⟩ :=
    updateRecordAndUser_fields env st q r' st' hres
  refine ⟨r', st', hres, h1, h2, h3, h4, h5, h6, h7, h8, h9, ?_⟩
  rw [h10]
  exact updateUser_snd_inv env st q hinv

/-- With the owner identity pinned, `_make_review_record` is the
value/updated_on adjustment followed by the value default and the
identity pass. -/
theorem makeReviewRecord_eq (env : Env) (st : St) (r : Record) (o : GUser)
    (un nm em : String)
    (how : r.owner = some o) (hun : o.username = some un)
    (hnm : o.name = some nm) (hem : o.email = some em) :
    makeReviewRecord env st r =
      (reviewAdjusted r un nm em).bind (fun rev =>
        updateRecordAndUser env st
          (if rev.value = none then { rev with value := some 0 } else rev)) := by
  unfold makeReviewRecord reviewAdjusted reviewBase
  rw [how]
  simp only [Option.bind_eq_bind, Option.some_bind]
  rw [hun]
  simp only [Option.bind_eq_bind, Option.some_bind]
  rw [hnm]
  simp only [Option.bind_eq_bind, Option.some_bind]
  rw [hem]
  simp only [Option.bind_eq_bind, Option.some_bind]
  cases r.patchSets.getLast? with
  | none => rfl
  | some patch =>
    dsimp only
    cases patch.approvals with
    | none => rfl
    | some approvals =>
      dsimp only
      cases approvals with
      | nil => rfl
      | cons a as => rfl

/-- With the caster identity pinned, `_make_mark_record` is the
identity pass on the mark literal. -/
theorem makeMarkRecord_eq (env : Env) (st : St) (r : Record) (p : PatchSet) (a : Approval)
    (un nm em : String)
    (hun : a.byUser.username = some un) (hnm : a.byUser.name = some nm)
    (hem : a.byUser.email = some em) :
    makeMarkRecord env st r p a = updateRecordAndUser env st (markBase r p a un nm em) := by
  unfold makeMarkRecord markBase
  rw [hun]
  simp only [Option.bind_eq_bind, Option.some_bind]
  rw [hnm]
  simp only [Option.bind_eq_bind, Option.some_bind]
  rw [hem]
  simp only [Option.bind_eq_bind, Option.some_bind]

/-- With the uploader identity pinned, `_make_patch_record` is the
identity pass on the patch literal. -/
theorem makePatchRecord_eq (env : Env) (st : St) (r : Record) (p : PatchSet)
    (un nm em : String)
    (hun : p.uploader.username = some un) (hnm : p.uploader.name = some nm)
    (hem : p.uploader.email = some em) :
    makePatchRecord env st r p = updateRecordAndUser env st (patchBase r p un nm em) := by
  unfold makePatchRecord patchBase
  rw [hun]
  simp only [Option.bind_eq_bind, Option.some_bind]
  rw [hnm]
  simp only [Option.bind_eq_bind, Option.some_bind]
  rw [hem]
  simp only [Option.bind_eq_bind, Option.some_bind]

/-- On a well-formed store, a kept approval whose caster carries email,
username and name yields exactly one mark record with the expected key
fields. -/
theorem makeMarkRecord_some (env : Env) (st : St) (r : Record) (p : PatchSet) (a : Approval)
    (hinv : usersInv st) (hv : validIdentity a.byUser) (hn : a.byUser.name.isSome) :
    ∃ mark st', makeMarkRecord env st r p a = some (mark, st') ∧
      mark.record_type = "mark" ∧
      mark.primary_key = r.id ++ toString a.grantedOn ++ a.type ∧
      mark.patch = some p.number ∧ mark.date = a.grantedOn ∧ mark.type = a.type ∧
      usersInv st' := by
  have hv' : a.byUser.email.isSome ∧ a.byUser.username.isSome := by
    simpa [validIdentity] using hv
  obtain ⟨em, hem⟩ := Option.isSome_iff_exists.mp hv'.1
  obtain ⟨un, hun⟩ := Option.isSome_iff_exists.mp hv'.2
  obtain ⟨nm, hnm⟩ := Option.isSome_iff_exists.mp hn
  rw [makeMarkRecord_eq env st r p a un nm em hun hnm hem]
  obtain ⟨mark, st', hres, h1, h2, h3, h4, h5, h6, h7, h8, h9, hinv'⟩ :=
    updateRecordAndUser_exists env st (markBase r p a un nm em) hinv
  exact ⟨mark, st', hres, h2.trans rfl, h1.trans rfl, h8.trans rfl, h3.trans rfl,
    h9.trans rfl, hinv'⟩

/-- On a well-formed store, a patch set whose uploader carries email,
username and name yields exactly one patch record with the expected key
fields. -/
theorem makePatchRecord_some (env : Env) (st : St) (r : Record) (p : PatchSet)
    (hinv : usersInv st) (hv : validIdentity p.uploader)
    (hn : p.uploader.name.isSome) :
    ∃ pr st', makePatchRecord env st r p = some (pr, st') ∧
      pr.record_type = "patch" ∧ pr.primary_key = getPatchId r.id p.number ∧
      pr.patch = none ∧ pr.date = p.createdOn ∧ pr.type = "" ∧ usersInv st' := by
  have hv' : p.uploader.email.isSome ∧ p.uploader.username.isSome := by
    simpa [validIdentity] using hv
  obtain ⟨em, hem⟩ := Option.isSome_iff_exists.mp hv'.1
  obtain ⟨un, hun⟩ := Option.isSome_iff_exists.mp hv'.2
  obtain ⟨nm, hnm⟩ := Option.isSome_iff_exists.mp hn
  rw [makePatchRecord_eq env st r p un nm em hun hnm hem]
  obtain ⟨pr, st', hres, h1, h2, h3, h4, h5, h6, h7, h8, h9, hinv'⟩ :=
    updateRecordAndUser_exists env st (patchBase r p un nm em) hinv
  exact ⟨pr, st', hres, h2.trans rfl, h1.trans rfl, h8.trans rfl, h3.trans rfl,
    h9.trans rfl, hinv'⟩

/-- On a well-formed store, with an owner carrying email, username and
name and no present-but-empty approval list on the last patch set,
`_make_review_record` succeeds and keeps the event's record type and
`id` as primary key. -/
theorem makeReviewRecord_some (env : Env) (st : St) (r : Record) (o : GUser)
    (un nm em : String) (hinv : usersInv st)
    (how : r.owner = some o) (hun : o.username = some un)
    (hnm : o.name = some nm) (hem : o.email = some em)
    (hne : ∀ p ∈ r.patchSets, p.approvals ≠ some []) :
    ∃ rev st', makeReviewRecord env st r = some (rev, st') ∧
      rev.record_type = r.record_type ∧ rev.primary_key = r.id ∧ usersInv st' := by
  rw [makeReviewRecord_eq env st r o un nm em how hun hnm hem]
  have hadj : ∃ rev0, reviewAdjusted r un nm em = some rev0 ∧
      rev0.record_type = r.record_type ∧ rev0.primary_key = r.id := by
    unfold reviewAdjusted
    cases hlast : r.patchSets.getLast? with
    | none => exact ⟨reviewBase r un nm em, rfl, rfl, rfl⟩
    | some p =>
      dsimp only
      cases happ : p.approvals with
      | none => exact ⟨{ reviewBase r un nm em with updated_on := p.createdOn }, rfl, rfl, rfl⟩
      | some as =>
        cases as with
        | nil => exact absurd happ (hne p (mem_of_getLast? hlast))
        | cons a as' =>
          exact ⟨{ reviewBase r un nm em with
                   value := some ((as'.map (fun x => x.value)).foldl min a.value),
                   updated_on := a.grantedOn }, rfl, rfl, rfl⟩
  obtain ⟨rev0, hadj0, hrt0, hpk0⟩ := hadj
  rw [hadj0]
  simp only [Option.some_bind]
  by_cases hvz : rev0.value = none
  · rw [if_pos hvz]
    obtain ⟨rev, st', hres, h1, h2, h3, h4, h5, h6, h7, h8, h9, hinv'⟩ :=
      updateRecordAndUser_exists env st { rev0 with value := some 0 } hinv
    exact ⟨rev, st', hres, h2.trans hrt0, h1.trans hpk0, hinv'⟩
  · rw [if_neg hvz]
    obtain ⟨rev, st', hres, h1, h2, h3, h4, h5, h6, h7, h8, h9, hinv'⟩ :=
      updateRecordAndUser_exists env st rev0 hinv
    exact ⟨rev, st', hres, h2.trans hrt0, h1.trans hpk0, hinv'⟩

/-- The mark loop of `_process_review` on a well-formed store: it
completes, keeps the store well-formed, and emits exactly one mark per
approval of a kept type whose caster carries email and username (in
order); every other approval is skipped. -/
theorem processApprovals_out (env : Env) (r : Record) (p : PatchSet) :
    ∀ (approvalList : List Approval) (st : St), usersInv st →
      (∀ a ∈ approvalList, keptApprovalType a → validIdentity a.byUser →
        a.byUser.name.isSome) →
      ∃ out st', processApprovals env r p st approvalList = (out, st', true) ∧
        usersInv st' ∧
        out.map identityKey =
          (approvalList.filter (fun a => keptApprovalType a && validIdentity a.byUser)).map
            (markKey r.id p.number) := by
  intro approvalList
  induction approvalList with
  | nil => intro st hinv _; exact ⟨[], st, rfl, hinv, rfl⟩
  | cons a rest ih =>
    intro st hinv hnames
    by_cases hk : keptApprovalType a
    · by_cases hvc : validIdentity a.byUser
      · obtain ⟨mark, st1, hmk, hrt, hpk, hpa, hdt, hty, hinv1⟩ :=
          makeMarkRecord_some env st r p a hinv hvc
            (hnames a (List.mem_cons_self a rest) hk hvc)
        obtain ⟨out, st', hrec, hinv', hmap⟩ :=
          ih st1 hinv1 (fun x hx => hnames x (List.mem_cons_of_mem a hx))
        refine ⟨mark :: out, st', ?_, hinv', ?_⟩
        · unfold processApprovals
          rw [if_neg (not_not_intro hk), if_neg (not_not_intro hvc), hmk]
          dsimp only
          rw [hrec]
        · rw [List.map_cons, hmap, List.filter_cons_of_pos (by simp [hk, hvc]),
            List.map_cons]
          congr 1
          unfold identityKey markKey
          rw [hrt, hpk, hpa, hdt, hty]
      · obtain ⟨out, st', hrec, hinv', hmap⟩ :=
          ih st hinv (fun x hx => hnames x (List.mem_cons_of_mem a hx))
        refine ⟨out, st', ?_, hinv', ?_⟩
        · unfold processApprovals
          rw [if_neg (not_not_intro hk), if_pos hvc]
          exact hrec
        · rw [List.filter_cons_of_neg (by simp [Bool.and_eq_true, hvc]), hmap]
    · obtain ⟨out, st', hrec, hinv', hmap⟩ :=
        ih st hinv (fun x hx => hnames x (List.mem_cons_of_mem a hx))
      refine ⟨out, st', ?_, hinv', ?_⟩
      · unfold processApprovals
        rw [if_pos hk]
        exact hrec
      · rw [List.filter_cons_of_neg (by simp [Bool.and_eq_true, hk]), hmap]

/-- The patch loop of `_process_review` on a well-formed store: it
completes, keeps the store well-formed, and per patch set with a valid
uploader emits its patch record followed by its kept marks; patch sets
with an invalid uploader are skipped together with all their marks. -/
theorem processPatchSets_out (env : Env) (r : Record) :
    ∀ (ps : List PatchSet) (st : St), usersInv st →
      (∀ p ∈ ps, validIdentity p.uploader → p.uploader.name.isSome) →
      (∀ p ∈ ps, validIdentity p.uploader →
        ∀ a ∈ p.approvals.getD [], keptApprovalType a → validIdentity a.byUser →
          a.byUser.name.isSome) →
      ∃ out st', processPatchSets env r st ps = (out, st', true) ∧ usersInv st' ∧
        out.map identityKey =
          (ps.filter (fun p => validIdentity p.uploader)).flatMap (patchKeys r) := by
  intro ps
  induction ps with
  | nil => intro st hinv _ _; exact ⟨[], st, rfl, hinv, rfl⟩
  | cons p rest ih =>
    intro st hinv hup hcast
    by_cases hvp : validIdentity p.uploader
    · obtain ⟨pr, st1, hpr, hprt, hppk, hppa, hpdt, hpty, hinv1⟩ :=
        makePatchRecord_some env st r p hinv hvp (hup p (List.mem_cons_self p rest) hvp)
      cases happ : p.approvals with
      | none =>
        obtain ⟨out, st', hrec, hinv', hmap⟩ := ih st1 hinv1
          (fun x hx => hup x (List.mem_cons_of_mem p hx))
          (fun x hx => hcast x (List.mem_cons_of_mem p hx))
        refine ⟨pr :: out, st', ?_, hinv', ?_⟩
        · unfold processPatchSets
          rw [if_neg (not_not_intro hvp), hpr]
          dsimp only
          rw [happ]
          dsimp only
          rw [hrec]
        · have hpkeys : patchKeys r p =
              [("patch", getPatchId r.id p.number, none, p.createdOn, "")] := by
            unfold patchKeys
            rw [happ]
            rfl
          rw [List.map_cons, hmap, List.filter_cons_of_pos (by exact hvp),
            List.flatMap_cons, hpkeys, List.singleton_append]
          congr 1
          unfold identityKey
          rw [hprt, hppk, hppa, hpdt, hpty]
      | some approvalList =>
        have hcast' : ∀ a ∈ approvalList, keptApprovalType a → validIdentity a.byUser →
            a.byUser.name.isSome := fun a ha =>
          hcast p (List.mem_cons_self p rest) hvp a (by rw [happ]; exact ha)
        obtain ⟨mout, st2, hma, hinv2, hmmap⟩ :=
          processApprovals_out env r p approvalList st1 hinv1 hcast'
        obtain ⟨out, st', hrec, hinv', hmap⟩ := ih st2 hinv2
          (fun x hx => hup x (List.mem_cons_of_mem p hx))
          (fun x hx => hcast x (List.mem_cons_of_mem p hx))
        refine ⟨pr :: (mout ++ out), st', ?_, hinv', ?_⟩
        · unfold processPatchSets
          rw [if_neg (not_not_intro hvp), hpr]
          dsimp only
          rw [happ]
          dsimp only
          rw [hma]
          dsimp only
          rw [if_pos rfl, hrec]
          rfl
        · have hpkeys : patchKeys r p =
              ("patch", getPatchId r.id p.number, none, p.createdOn, "") ::
                (approvalList.filter
                    (fun a => keptApprovalType a && validIdentity a.byUser)).map
                  (markKey r.id p.number) := by
            unfold patchKeys
            rw [happ]
            rfl
          rw [List.map_cons, List.map_append, hmmap, hmap,
            List.filter_cons_of_pos (by exact hvp), List.flatMap_cons, hpkeys,
            List.cons_append]
          congr 1
          unfold identityKey
          rw [hprt, hppk, hppa, hpdt, hpty]
    · obtain ⟨out, st', hrec, hinv', hmap⟩ := ih st hinv
        (fun x hx => hup x (List.mem_cons_of_mem p hx))
        (fun x hx => hcast x (List.mem_cons_of_mem p hx))
      refine ⟨out, st', ?_, hinv', ?_⟩
      · unfold processPatchSets
        rw [if_pos hvp]
        exact hrec
      · rw [List.filter_cons_of_neg (by exact hvp), hmap]

/-- C6 counterexample: the emitted review record's `updated_on` is the
FIRST listed approval's grant time of the last patch set (5), not the
newest grant time (10) as the claim states. -/
theorem c6_counterexample :
    ((makeReviewRecord envPlain {} c6Review).map (fun q => q.1.updated_on) = some 5)
    ∧ c6Review.patchSets.getLast? = some c6Patch
    ∧ (∃ a ∈ c6Patch.approvals.getD [], a.grantedOn = 10)
    ∧ (5 : Int) ≠ 10 := by
  decide

/-- C6 (amended): for every review event whose owner carries username,
name and email and whose own `value` key is unset, on a well-formed
store `_make_review_record` emits one review record whose `value` is
the minimum of the last patch set's approval values (0 when there is
no patch set or the last patch set has no approvals key) and whose
`updated_on` is the review's creation date when there are no patch
sets, the last patch set's creation time when it has no approvals key,
and the FIRST listed approval's grant time when approvals exist (the
newest one only if it happens to be listed first); a present-but-empty
approvals list crashes the pass instead of yielding a record. -/
theorem c6_review_value_updated_on (env : Env) (st : St) (r : Record) (o : GUser)
    (un nm em : String)
    (hinv : usersInv st)
    (how : r.owner = some o) (hun : o.username = some un)
    (hnm : o.name = some nm) (hem : o.email = some em)
    (hv : r.value = none) :
    (r.patchSets = [] →
      ∃ rv st', makeReviewRecord env st r = some (rv, st') ∧
        rv.value = some 0 ∧ rv.updated_on = r.createdOn)
    ∧ (∀ p, r.patchSets.getLast? = some p → p.approvals = none →
      ∃ rv st', makeReviewRecord env st r = some (rv, st') ∧
        rv.value = some 0 ∧ rv.updated_on = p.createdOn)
    ∧ (∀ p a approvalTail, r.patchSets.getLast? = some p →
      p.approvals = some (a :: approvalTail) →
      ∃ rv st', makeReviewRecord env st r = some (rv, st') ∧
        rv.value = ((a :: approvalTail).map (fun x => x.value)).min? ∧
        rv.updated_on = a.grantedOn)
    ∧ (∀ p, r.patchSets.getLast? = some p → p.approvals = some [] →
      makeReviewRecord env st r = none) := by
  rw [makeReviewRecord_eq env st r o un nm em how hun hnm hem]
  refine ⟨?_, ?_, ?_, ?_⟩
  · intro hps
    have hadj : reviewAdjusted r un nm em = some (reviewBase r un nm em) := by
      unfold reviewAdjusted
      rw [hps]
      rfl
    simp only [hadj, Option.some_bind]
    rw [if_pos (show (reviewBase r un nm em).value = none from hv)]
    obtain ⟨rv, st', hres, h1, h2, h3, h4, hval, hupd, h7, h8, h9, hinv'⟩ :=
      updateRecordAndUser_exists env st { reviewBase r un nm em with value := some 0 } hinv
    exact ⟨rv, st', hres, hval.trans rfl, hupd.trans rfl⟩
  · intro p hp happ
    have hadj : reviewAdjusted r un nm em =
        some { reviewBase r un nm em with updated_on := p.createdOn } := by
      unfold reviewAdjusted
      rw [hp]
      dsimp only
      rw [happ]
    simp only [hadj, Option.some_bind]
    rw [if_pos (show ({ reviewBase r un nm em with
      updated_on := p.createdOn } : Record).value = none from hv)]
    obtain ⟨rv, st', hres, h1, h2, h3, h4, hval, hupd, h7, h8, h9, hinv'⟩ :=
      updateRecordAndUser_exists env st
        { { reviewBase r un nm em with updated_on := p.createdOn } with value := some 0 } hinv
    exact ⟨rv, st', hres, hval.trans rfl, hupd.trans rfl⟩
  · intro p a approvalTail hp happ
    have hadj : reviewAdjusted r un nm em =
        some { reviewBase r un nm em with
               value := some ((approvalTail.map (fun x => x.value)).foldl min a.value),
               updated_on := a.grantedOn } := by
      unfold reviewAdjusted
      rw [hp]
      dsimp only
      rw [happ]
      rfl
    simp only [hadj, Option.some_bind]
    rw [if_neg (show ¬ ({ reviewBase r un nm em with
        value := some ((approvalTail.map (fun x => x.value)).foldl min a.value),
        updated_on := a.grantedOn } : Record).value = none from
      fun hcon => Option.noConfusion hcon)]
    obtain ⟨rv, st', hres, h1, h2, h3, h4, hval, hupd, h7, h8, h9, hinv'⟩ :=
      updateRecordAndUser_exists env st
        { reviewBase r un nm em with
          value := some ((approvalTail.map (fun x => x.value)).foldl min a.value),
          updated_on := a.grantedOn } hinv
    exact ⟨rv, st', hres, hval.trans rfl, hupd.trans rfl⟩
  · intro p hp happ
    have hadj : reviewAdjusted r un nm em = none := by
      unfold reviewAdjusted
      rw [hp]
      dsimp only
      rw [happ]
      rfl
    simp only [hadj, Option.none_bind]

/-- C6 witness: the amended description evaluated on the concrete
two-approval review event. -/
theorem c6_witness :
    ∃ rv st', makeReviewRecord envPlain {} c6Review = some (rv, st') ∧
      rv.value = ([c6A1, c6A2].map (fun x => x.value)).min? ∧
      rv.updated_on = c6A1.grantedOn :=
  (c6_review_value_updated_on envPlain {} c6Review c6Owner "oona" "Oona Owner"
      "oona@example.org" (fun kv h => absurd h (List.not_mem_nil kv)) rfl rfl rfl rfl
      rfl).2.2.1 c6Patch c6A1 [c6A2] rfl rfl

/-- C8: an event whose owner lacks email or username yields no records
and completes silently; otherwise (well-formed store, owner with a
name, no present-but-empty approval list, and valid uploaders/casters
carrying names) the run completes silently with the review record
first, followed per valid-uploader patch set by its patch record and
one mark per kept-type approval with a valid caster — patch sets with
an invalid uploader are skipped with all their marks, and invalid
casters lose only their own mark. -/
theorem c8_missing_identity_skips (env : Env) (st : St) (r : Record) (o : GUser)
    (hinv : usersInv st) (how : r.owner = some o) :
    (¬ validIdentity o → processReview env st r = ([], st, true))
    ∧ (validIdentity o → o.name.isSome →
       (∀ p ∈ r.patchSets, p.approvals ≠ some []) →
       (∀ p ∈ r.patchSets, validIdentity p.uploader → p.uploader.name.isSome) →
       (∀ p ∈ r.patchSets, validIdentity p.uploader →
         ∀ a ∈ p.approvals.getD [], keptApprovalType a → validIdentity a.byUser →
           a.byUser.name.isSome) →
       ∃ rev out st', processReview env st r = (rev :: out, st', true) ∧
         rev.record_type = r.record_type ∧ rev.primary_key = r.id ∧ usersInv st' ∧
         out.map identityKey =
           (r.patchSets.filter (fun p => validIdentity p.uploader)).flatMap
             (patchKeys r)) := by
  constructor
  · intro hvo
    unfold processReview
    rw [how]
    dsimp only
    rw [if_pos hvo]
  · intro hvo hname hne hup hcast
    have hv' : o.email.isSome ∧ o.username.isSome := by simpa [validIdentity] using hvo
    obtain ⟨em, hem⟩ := Option.isSome_iff_exists.mp hv'.1
    obtain ⟨un, hun⟩ := Option.isSome_iff_exists.mp hv'.2
    obtain ⟨nm, hnm⟩ := Option.isSome_iff_exists.mp hname
    obtain ⟨rev, st1, hmk, hrt, hpk, hinv1⟩ :=
      makeReviewRecord_some env st r o un nm em hinv how hun hnm hem hne
    obtain ⟨out, st', hrec, hinv', hmap⟩ :=
      processPatchSets_out env r r.patchSets st1 hinv1 hup hcast
    refine ⟨rev, out, st', ?_, hrt, hpk, hinv', hmap⟩
    unfold processReview
    rw [how]
    dsimp only
    rw [if_neg (not_not_intro hvo), hmk]
    dsimp only
    rw [hrec]

/-- C8 witness: the skip behaviour evaluated on the concrete mixed
review event. -/
theorem c8_witness :
    ∃ rev out st', processReview envPlain {} c8Review = (rev :: out, st', true) ∧
      rev.record_type = c8Review.record_type ∧ rev.primary_key = c8Review.id ∧
      usersInv st' ∧
      out.map identityKey =
        (c8Review.patchSets.filter (fun p => validIdentity p.uploader)).flatMap
          (patchKeys c8Review) :=
  (c8_missing_identity_skips envPlain {} c8Review c8Owner
      (fun kv h => absurd h (List.not_mem_nil kv)) rfl).2
    (by decide) (by decide) (by decide) (by decide) (by decide)
